import Mathlib

set_option maxHeartbeats 1000000

namespace Melaleuca

/-! Shallow embedding of `src/server.js` of the melaleuca-recommender
repository.  JavaScript numbers are modelled as `ℚ` (with `Option ℚ` where
`NaN`/`undefined` can flow), strings as `String`, arrays as `List`, and the
WHATWG `new URL(...)` machinery is abstracted behind explicit function
parameters (`ps` for path segmentation, `resolve` for relative-URL
resolution), since the classifier and normalizer only ever consume the
lowercased path segments resp. the resolved absolute URL string. -/

/-- Whether `pat` occurs as a contiguous sublist, scanning positions left
to right. -/
def hasSubList (pat : List Char) : List Char → Bool
  | [] => pat.isEmpty
  | c :: rest => pat.isPrefixOf (c :: rest) || hasSubList pat rest

/-- JS-style substring containment, `s.includes(pat)` (an empty pattern is
always contained). -/
def containsSubstr (s pat : String) : Bool :=
  hasSubList pat.toList s.toList

/-- `String(s || '').toLowerCase()` (the catalog and queries are ASCII, so
per-character ASCII lowercasing models it). -/
def jsNorm (s : String) : String := String.mk (s.toList.map Char.toLower)

/-- Splits a character list at every character satisfying `p`, keeping
empty chunks (the behavior of splitting on a single-character class). -/
def splitChars (p : Char → Bool) : List Char → List (List Char)
  | [] => [[]]
  | c :: rest =>
    match splitChars p rest with
    | [] => [[]]
    | h :: t => if p c then [] :: h :: t else (c :: h) :: t

/-- Index of the first occurrence of `pat` as a contiguous sublist. -/
def findSubIdx (pat : List Char) : List Char → Option ℕ
  | [] => if pat.isEmpty then some 0 else none
  | c :: rest =>
    if pat.isPrefixOf (c :: rest) then some 0
    else (findSubIdx pat rest).map (· + 1)

/-- JS `s.replace(pat, repl)` with a string pattern: replaces the first
occurrence only. -/
def jsReplaceFirst (s pat repl : String) : String :=
  match findSubIdx pat.toList s.toList with
  | none => s
  | some i =>
    String.mk (s.toList.take i ++ repl.toList
      ++ s.toList.drop (i + pat.toList.length))

/-- The stop-term set of known category/section path segments
(`STOPWORDS` in `src/server.js`, lines 298-302). -/
def STOPWORDS : List String :=
  ["r3", "supplements", "cleaning-and-laundry", "all-cleaning-and-laundry",
   "personal-care", "home-care", "home-cleaning", "laundry", "skincare",
   "skin-care", "nutrition", "pharmacy", "beauty", "bath-and-body", "home",
   "shop-all", "shop", "categories", "gifts", "clearance", "new-products",
   "product-store", "productstore", "healthy-foods-and-drinks",
   "color-cosmetics", "acne-prevention", "premium-skin-care",
   "hand-soap-sanitizers", "healthy-weight-protein", "healthy-snacks",
   "baking-mixes", "outlet-store", "extra-savings", "beauty-specials",
   "now-trending-seasonal-colors"]

/-- The alternatives of the detail-keyword regular expression
`/(product|detail|item|showdetails)/i` used in `isLikelyProductDetailUrl`. -/
def detailKeywords : List String := ["product", "detail", "item", "showdetails"]

/-- Whether a (lowercased) path segment matches the detail-keyword regex,
i.e. contains one of the keywords as a substring. -/
def segHasDetailKeyword (seg : String) : Bool :=
  detailKeywords.any (containsSubstr seg)

/-- Whether a segment contains a decimal digit (the `/\d/` test). -/
def segHasDigit (seg : String) : Bool := seg.toList.any Char.isDigit

/-- The decision of `isLikelyProductDetailUrl` on the residual segments
`rest = parts.slice(idx + 1)` after the `productstore` marker
(`src/server.js` lines 312-322). -/
def detailRest (rest : List String) : Bool :=
  if rest.length < 2 then false
  else if rest.all (fun seg => STOPWORDS.contains seg) then false
  else if rest.any segHasDetailKeyword then true
  else if 3 ≤ rest.length then true
  else rest.any segHasDigit

/-- Core of `isLikelyProductDetailUrl` (`src/server.js` lines 304-326),
operating on the lowercased nonempty path segments of the URL, i.e. on the
value of `url.pathname.toLowerCase().split('/').filter(Boolean)`: locate
the first `productstore` segment (`parts.indexOf`) and decide on the
residual segments after it. -/
def isLikelyFromParts (parts : List String) : Bool :=
  match parts.findIdx? (· == "productstore") with
  | none => false
  | some idx => detailRest (parts.drop (idx + 1))

/-- `isLikelyProductDetailUrl(u)`.  The parameter `ps` abstracts
`new URL(u, 'https://www.melaleuca.com').pathname.toLowerCase()
  .split('/').filter(Boolean)`; `ps u = none` models the URL constructor
throwing (the `catch` branch returning `false`). -/
def isLikelyProductDetailUrl (ps : String → Option (List String))
    (u : String) : Bool :=
  if u == "" then false
  else
    match ps u with
    | none => false
    | some parts => isLikelyFromParts parts

/-- A concrete instantiation of the path segmenter `ps`, adequate for
plain path-only URLs such as `/productstore/cat/sku123`: drop any query or
fragment, lowercase, split on `/`, keep nonempty segments. -/
def simpleSegments (u : String) : Option (List String) :=
  some (((splitChars (fun c => c == '/')
      ((u.toList.takeWhile (fun c => !(c == '?' || c == '#'))).map
        Char.toLower)).map String.mk).filter (fun s => !(s == "")))

/-- A JavaScript value reaching `parsePrice`: a number or a string. -/
inductive PriceVal where
  | num (q : ℚ)
  | str (s : String)
deriving DecidableEq

/-- Numeric value of a list of decimal digit characters. -/
def digitsVal (ds : List Char) : ℕ :=
  ds.foldl (fun n c => n * 10 + (c.toNat - 48)) 0

/-- Reads the regex match `[0-9]+(?:\.[0-9]+)?` anchored at the head of
`cs` (the head is known to be a digit): a maximal digit run, optionally
followed by a dot and a further nonempty maximal digit run. -/
def readDecimal (cs : List Char) : ℚ :=
  let ds := cs.takeWhile Char.isDigit
  match cs.drop ds.length with
  | '.' :: r2 =>
    let fs := r2.takeWhile Char.isDigit
    if fs.isEmpty then (digitsVal ds : ℚ)
    else (digitsVal ds : ℚ) + (digitsVal fs : ℚ) / ((10 : ℚ) ^ fs.length)
  | _ => (digitsVal ds : ℚ)

/-- First match of `([0-9]+(?:\.[0-9]+)?)` in a character list, as a
rational; `none` models no match (`NaN`). -/
def firstNumber : List Char → Option ℚ
  | [] => none
  | c :: rest =>
    if c.isDigit then some (readDecimal (c :: rest)) else firstNumber rest

/-- `parsePrice(x)` (`src/server.js` lines 252-259): a number is returned
as-is; a string has commas and whitespace stripped and its first decimal
number extracted; anything else (and a non-matching string) gives `NaN`,
modelled as `none`. -/
def parsePrice : PriceVal → Option ℚ
  | .num q => some q
  | .str s =>
    firstNumber (s.toList.filter (fun c => !(c == ',' || c.isWhitespace)))

/-- The canonical product record shape produced by the server.  `price` is
`Option ℚ`: `none` models a non-numeric `price` field (`undefined`/`NaN`),
which the code guards with `typeof p.price === 'number'`.  `rating` is only
present on local-catalog entries. -/
structure Product where
  name : String := ""
  price : Option ℚ := none
  category : String := ""
  description : String := ""
  url : String := ""
  image : Option String := none
  tags : List String := []
  rating : Option ℚ := none
deriving DecidableEq

/-- An `offers` entry of a JSON-LD node.  A field is `some v` when present
and truthy (the code tests `o.price` resp.
`o.priceSpecification && o.priceSpecification.price` for truthiness). -/
structure Offer where
  price : Option PriceVal := none
  priceSpecPrice : Option PriceVal := none
deriving DecidableEq

/-- A JSON-LD node as consumed by `normalizeProductFromJSONLD`.
`atType = none` models a `null`/absent `@type`; otherwise the list is the
result of `toArray(node['@type']).map(String)`.  `name = ""` models a
missing or empty name (`node.name || ''`).  `offers` is the array-ified
offers list (absent offers are the empty list, which the loop treats the
same way).  `image` is the first image (`Array.isArray` unwrap applied). -/
structure JsonLDNode where
  atType : Option (List String) := none
  hasGraph : Bool := false
  name : String := ""
  offers : List Offer := []
  category : String := ""
  description : String := ""
  url : String := ""
  image : Option String := none
deriving DecidableEq

/-- The offers scan of `normalizeProductFromJSONLD`: the first offer with a
truthy `price` (else a truthy nested `priceSpecification.price`) is parsed
and the loop breaks; `none` means `price` stays `undefined` (or parsed to
`NaN`). -/
def offerPrice : List Offer → Option ℚ
  | [] => none
  | o :: rest =>
    match o.price with
    | some pv => parsePrice pv
    | none =>
      match o.priceSpecPrice with
      | some pv => parsePrice pv
      | none => offerPrice rest

/-- `normalizeProductFromJSONLD(node, baseUrl)` (`src/server.js` lines
261-295).  `resolve rel base` abstracts `new URL(rel, base).toString()`;
`ps` is the path segmenter for the detail-URL classifier. -/
def normalizeProductFromJSONLD (ps : String → Option (List String))
    (resolve : String → String → String)
    (node : JsonLDNode) (baseUrl : String) : Option Product :=
  if node.atType == none && !node.hasGraph then none
  else if !((node.atType.getD []).contains "Product") then none
  else
    let price := offerPrice node.offers
    let url := if node.url == "" then node.url else resolve node.url baseUrl
    if node.name == "" then none
    else
      let likely := isLikelyProductDetailUrl ps url
      let posPrice :=
        match price with
        | some q => decide (0 < q)
        | none => false
      if !likely && !posPrice then none
      else
        some { name := node.name, price := some (price.getD 0),
               category := node.category, description := node.description,
               url := url, image := node.image, tags := [] }

/-- Detail-likelihood bit of the `prioritizeProducts` comparator. -/
def detailFlag (ps : String → Option (List String)) (p : Product) : ℕ :=
  if isLikelyProductDetailUrl ps p.url then 1 else 0

/-- Positive-numeric-price bit of the comparator
(`typeof a.price === 'number' && a.price > 0`). -/
def priceFlag (p : Product) : ℕ :=
  match p.price with
  | some q => if 0 < q then 1 else 0
  | none => 0

/-- `String(a.name || '').length`. -/
def nameLen (p : Product) : ℕ := p.name.length

/-- The `prioritizeProducts` comparator (`src/server.js` lines 345-355):
detail bit first, then positive-price bit, then name length, each larger
first. -/
def prodCmp (ps : String → Option (List String)) (a b : Product) : ℤ :=
  let ad := detailFlag ps a
  let bd := detailFlag ps b
  if ad ≠ bd then (bd : ℤ) - (ad : ℤ)
  else
    let ap := priceFlag a
    let bp := priceFlag b
    if ap ≠ bp then (bp : ℤ) - (ap : ℤ)
    else (nameLen b : ℤ) - (nameLen a : ℤ)

/-- `a` may be placed before `b` by the comparator (comparator value ≤ 0).
A JS engine's `Array.prototype.sort` with a consistent comparator is
exactly the stable sort by this relation. -/
def prodBefore (ps : String → Option (List String)) (a b : Product) : Prop :=
  prodCmp ps a b ≤ 0

instance (ps : String → Option (List String)) :
    DecidableRel (prodBefore ps) :=
  fun a b => inferInstanceAs (Decidable (prodCmp ps a b ≤ 0))

/-- `prioritizeProducts(items)` (`src/server.js` lines 343-356):
`items.slice().sort(cmp)` — a stable sort of a copy of the input by the
three-key comparator, modelled by the stable `List.insertionSort` (the
ECMAScript specification mandates a stable sort, which is unique, so any
compliant engine produces this list). -/
def prioritizeProducts (ps : String → Option (List String))
    (items : List Product) : List Product :=
  items.insertionSort (prodBefore ps)

/-- A JavaScript number that may be `NaN`: `none` models `NaN`. -/
abbrev JSNum : Type := Option ℚ

/-- JS `ToIntegerOrInfinity` truncation (toward zero) of a finite number. -/
def jsTrunc (q : ℚ) : ℤ := if q < 0 then ⌈q⌉ else ⌊q⌋

/-- `list.slice(0, limit)` guarded by `if (limit)`: a falsy limit (`NaN` or
`0`) leaves the list untouched; a positive limit keeps the first
`trunc limit` elements; a negative limit drops `|trunc limit|` elements
from the end. -/
def jsSlice {α : Type} (limit : JSNum) (l : List α) : List α :=
  match limit with
  | none => l
  | some q =>
    if q == 0 then l
    else
      let e := jsTrunc q
      if e < 0 then l.take ((l.length : ℤ) + e).toNat else l.take e.toNat

/-- The cache key `JSON.stringify([tag, q || '', category || '',
maxPrice || '', limit || ''])`: two keys collide exactly when the five
components agree, with falsy numbers (`0`, `NaN`, `undefined`) all
collapsing to `''` (modelled as `none`). -/
structure CacheKey where
  tag : String
  q : String
  category : String
  maxPrice : Option ℚ
  limit : Option ℚ
deriving DecidableEq

/-- Key component for a number-or-undefined parameter under `|| ''`. -/
def keyNum (n : Option JSNum) : Option ℚ :=
  match n with
  | some (some q) => if q == 0 then none else some q
  | _ => none

/-- Builds the search-cache key for one subsystem tag. -/
def mkKey (tag q category : String) (maxPrice : Option JSNum)
    (limit : JSNum) : CacheKey :=
  { tag := tag, q := q, category := category,
    maxPrice := keyNum maxPrice, limit := keyNum (some limit) }

/-- A `SEARCH_CACHE` entry: `{ ts, items, url }` (the local subsystem
leaves `url` empty). -/
structure CacheEntry where
  ts : ℕ
  items : List Product
  url : String := ""
deriving DecidableEq

/-- The shared `SEARCH_CACHE` map, as an association list (later `set`s
shadow earlier bindings, as for a JS `Map`). -/
abbrev Cache : Type := List (CacheKey × CacheEntry)

/-- `SEARCH_CACHE.get(key)`. -/
def cacheGet (c : Cache) (k : CacheKey) : Option CacheEntry :=
  (c.find? (fun kv => decide (kv.1 = k))).map (·.2)

/-- `SEARCH_CACHE.set(key, entry)`. -/
def cacheSet (c : Cache) (k : CacheKey) (e : CacheEntry) : Cache :=
  (k, e) :: c.filter (fun kv => !(decide (kv.1 = k)))

/-- `tags.map(norm).join(' ')`. -/
def joinSpace : List String → String
  | [] => ""
  | [x] => x
  | x :: y :: rest => x ++ " " ++ joinSpace (y :: rest)

/-- The searchable haystack of `scoreLocal`: the space-separated
concatenation of normalized name, description, joined tags and category
(template literal in `src/server.js` line 558). -/
def hayOf (p : Product) : String :=
  jsNorm p.name ++ " " ++ jsNorm p.description ++ " "
    ++ joinSpace (p.tags.map jsNorm) ++ " " ++ jsNorm p.category

/-- `qq.split(/[^a-z0-9]+/).filter(Boolean)`: split the lowercased query at
non-alphanumeric characters and drop empty chunks. -/
def tokenize (s : String) : List String :=
  ((splitChars (fun c => !c.isAlphanum) s.toList).map String.mk).filter
    (fun t => !(t == ""))

/-- `scoreLocal(p, { q, category, maxPrice })` (`src/server.js` lines
555-570).  `maxPrice = some none` is a present-but-`NaN` max price
(`typeof maxPrice === 'number'` is then still true, and `p.price <= NaN`
is false). -/
def scoreLocal (p : Product) (q category : String)
    (maxPrice : Option JSNum) : ℚ :=
  let hay := hayOf p
  let qq := jsNorm q
  let tokScore : ℚ :=
    if qq == "" then 0
    else 2 * ((tokenize qq).filter (fun t => containsSubstr hay t)).length
  let phraseScore : ℚ :=
    if qq == "" then 0 else if containsSubstr hay qq then 3 else 0
  let catScore : ℚ :=
    if category == "" then 0
    else if jsNorm p.category == jsNorm category then 2 else 0
  let priceScore : ℚ :=
    match maxPrice with
    | some (some m) =>
      match p.price with
      | some pr => if pr ≤ m then 1 else 0
      | none => 0
    | some none => 0
    | none => 0
  let ratingScore : ℚ :=
    match p.rating with
    | some r => r * (1 / 5)
    | none => 0
  tokScore + phraseScore + catScore + priceScore + ratingScore

/-- The hard-filter and scoring stage of `searchLocalProducts`
(`src/server.js` lines 584-588) on a loaded catalog: keep entries with a
numeric price within the ceiling (when a max price was supplied — note a
`NaN` ceiling filters everything out), keep entries whose category equals
the requested one case-insensitively (when a category was supplied), and
pair each survivor with its score.  `catalog = none` models a missing or
malformed `products.json` (the `catch` leaves `products = []`). -/
def localScored (catalog : Option (List Product)) (q category : String)
    (maxPrice : Option JSNum) : List (Product × ℚ) :=
  let products := catalog.getD []
  let list1 :=
    match maxPrice with
    | some mp =>
      products.filter (fun (p : Product) =>
        match p.price, mp with
        | some pr, some m => decide (pr ≤ m)
        | _, _ => false)
    | none => products
  let list2 :=
    if category == "" then list1
    else list1.filter (fun p => jsNorm p.category == jsNorm category)
  list2.map (fun p => (p, scoreLocal p q category maxPrice))

/-- The sort stage, `.sort((a, b) => b.s - a.s)`: a stable descending sort
by score. -/
def localSorted (catalog : Option (List Product)) (q category : String)
    (maxPrice : Option JSNum) : List (Product × ℚ) :=
  (localScored catalog q category maxPrice).insertionSort
    (fun a b => b.2 ≤ a.2)

/-- The filter-score-sort-truncate body of `searchLocalProducts`
(`src/server.js` lines 577-591) on a loaded catalog. -/
def localCompute (catalog : Option (List Product)) (q category : String)
    (maxPrice : Option JSNum) (limit : JSNum) : List Product :=
  jsSlice limit
    ((localSorted catalog q category maxPrice).map
      (fun x : Product × ℚ => x.1))

/-- `searchLocalProducts({ q, category, maxPrice, limit })`
(`src/server.js` lines 572-594): serve any cache entry younger than the
TTL (empty or not), else compute from the catalog and cache the result
unconditionally.  Returns `((items, cached), cache')`. -/
def searchLocalProducts (catalog : Option (List Product)) (cache : Cache)
    (now ttl : ℕ) (q category : String) (maxPrice : Option JSNum)
    (limit : JSNum) : (List Product × Bool) × Cache :=
  let key := mkKey "local" q category maxPrice limit
  match cacheGet cache key with
  | some e =>
    if now - e.ts < ttl then ((e.items, true), cache)
    else
      let items := localCompute catalog q category maxPrice limit
      ((items, false), cacheSet cache key { ts := now, items := items })
  | none =>
    let items := localCompute catalog q category maxPrice limit
    ((items, false), cacheSet cache key { ts := now, items := items })

/-- The limit computation of the search endpoint (`src/server.js` line
660): absent parameter defaults to `3`, a present parameter is clamped by
`Math.max(1, Math.min(20, Number(limitParam)))`, where both `Math.min` and
`Math.max` propagate `NaN`. -/
def effectiveLimit (limitParam : Option JSNum) : JSNum :=
  match limitParam with
  | none => some 3
  | some none => none
  | some (some q) => some (max 1 (min 20 q))

/-- First JSON-LD block (in document order) that normalizes to a product:
the `for (const b of blocks) { const prod = normalizeProductFromJSONLD(b,
url); if (prod) { found = prod; break; } }` loop. -/
def findFirstProd (ps : String → Option (List String))
    (resolve : String → String → String) :
    List JsonLDNode → String → Option Product
  | [], _ => none
  | b :: rest, base =>
    match normalizeProductFromJSONLD ps resolve b base with
    | some p => some p
    | none => findFirstProd ps resolve rest base

/-- The record merge `{ ...p, ...found, url: found.url || p.url }`: the
normalized product overwrites every field it carries (it always carries
name, price, category, description, url, image and tags; it never carries
a rating, so `p.rating` survives), and an empty normalized URL falls back
to the candidate URL. -/
def mergeProd (p found : Product) : Product :=
  { found with rating := p.rating,
               url := if found.url == "" then p.url else found.url }

/-- Abstract interface to the effectful and markup-parsing surroundings of
the remote pipeline.  `fetch` is `httpGet` (`none` = rejected promise);
`blocks` is `extractJSONLDBlocks`; `parse` abstracts the whole of
`parseProductsFromHTML`; `ps`/`resolve` abstract the WHATWG URL machinery;
`encode` is `encodeURIComponent`; `bingRun`/`sitemapRun` abstract the
outcome of `searchViaBingProducts` resp. `searchViaSitemap` as a result
list paired with the list of URLs those stages fetched internally. -/
structure RemoteEnv where
  fetch : String → Option String
  blocks : String → List JsonLDNode
  parse : String → String → List Product
  ps : String → Option (List String)
  resolve : String → String → String
  encode : String → String
  hasCheerio : Bool
  bingRun : List Product × List String
  sitemapRun : List Product × List String

/-- Remote-scrape configuration: `SCRAPE_ENABLED`, `SCRAPE_CACHE_TTL_MS`,
`SCRAPE_MAX_TIME_MS` and the `SCRAPE_SEARCH_URL` template. -/
structure RemoteCfg where
  enabled : Bool
  ttl : ℕ
  budget : ℕ
  template : String

/-- `limit || 6` for a JS number that may be `NaN` (falsy) or `0`. -/
def jsOr6 (limit : JSNum) : ℚ :=
  match limit with
  | none => 6
  | some q => if q == 0 then 6 else q

/-- `filterAndHydrateDetails(items, limit, maxFetch, startTs)`
(`src/server.js` lines 9-36).  `elapsed k` is the value of
`Date.now() - startTs` at the k-th wall-clock reading (one reading per
loop iteration, taken before any fetch of that iteration).  Returns the
kept products, the next reading index, and the list of URLs fetched. -/
def filterAndHydrateDetails (env : RemoteEnv) (elapsed : ℕ → ℕ)
    (budget : ℕ) : List Product → ℕ → ℚ → ℕ → List String → List Product →
    (List Product × ℕ × List String)
  | [], k, _, _, _, keep => (keep, k, [])
  | p :: rest, k, limit, maxFetch, visited, keep =>
    if elapsed k > budget then (keep, k + 1, [])
    else if p.url == "" then
      filterAndHydrateDetails env elapsed budget rest (k + 1) limit maxFetch
        visited keep
    else if visited.contains p.url then
      filterAndHydrateDetails env elapsed budget rest (k + 1) limit maxFetch
        visited keep
    else
      let visited' := p.url :: visited
      if !(isLikelyProductDetailUrl env.ps p.url) then
        filterAndHydrateDetails env elapsed budget rest (k + 1) limit maxFetch
          visited' keep
      else
        match env.fetch p.url with
        | none =>
          if maxFetch ≤ 1 then (keep, k + 1, [p.url])
          else
            let r := filterAndHydrateDetails env elapsed budget rest (k + 1)
              limit (maxFetch - 1) visited' keep
            (r.1, r.2.1, p.url :: r.2.2)
        | some html =>
          let keep' :=
            match findFirstProd env.ps env.resolve (env.blocks html) p.url with
            | some found => keep ++ [mergeProd p found]
            | none => keep
          if (keep'.length : ℚ) ≥ limit ∨ visited'.length ≥ maxFetch then
            (keep', k + 1, [p.url])
          else if maxFetch ≤ 1 then (keep', k + 1, [p.url])
          else
            let r := filterAndHydrateDetails env elapsed budget rest (k + 1)
              limit (maxFetch - 1) visited' keep'
            (r.1, r.2.1, p.url :: r.2.2)

/-- `hasBasics` inside `enrichFromDetailPages`: the candidate already has
a description, a positive numeric price, or an absolute image URL. -/
def hasBasics (p : Product) : Bool :=
  !(p.description == "") ||
    (match p.price with
     | some pr => decide (0 < pr)
     | none => false) ||
    (match p.image with
     | some img => "http".toList.isPrefixOf img.toList
     | none => false)

/-- `enrichFromDetailPages(items, maxFetch)` (`src/server.js` lines
358-383): walk the list, re-fetch up to `allow` thin detail candidates,
and replace a candidate by the merge with its first extracted product.
Returns the updated list, the `changed` flag, and the fetched URLs. -/
def enrichFromDetailPages (env : RemoteEnv) :
    List Product → ℕ → (List Product × Bool × List String)
  | [], _ => ([], false, [])
  | p :: rest, allow =>
    if allow = 0 then (p :: rest, false, [])
    else if !(isLikelyProductDetailUrl env.ps p.url) then
      let r := enrichFromDetailPages env rest allow
      (p :: r.1, r.2.1, r.2.2)
    else if hasBasics p then
      let r := enrichFromDetailPages env rest allow
      (p :: r.1, r.2.1, r.2.2)
    else
      match env.fetch p.url with
      | none =>
        let r := enrichFromDetailPages env rest allow
        (p :: r.1, r.2.1, p.url :: r.2.2)
      | some html =>
        match findFirstProd env.ps env.resolve (env.blocks html) p.url with
        | some prod =>
          let r := enrichFromDetailPages env rest (allow - 1)
          (mergeProd p prod :: r.1, true, p.url :: r.2.2)
        | none =>
          let r := enrichFromDetailPages env rest (allow - 1)
          (p :: r.1, r.2.1, p.url :: r.2.2)

/-- Result triple of `searchRemoteProducts`. -/
structure RemoteResult where
  items : List Product
  url : String
  cached : Bool
deriving DecidableEq

/-- The alternate-fetch stage (`src/server.js` lines 471-488): runs only
when the primary stage produced no items or none classify detail-likely,
and only after checking the elapsed time against the budget (reading 0);
replaces the candidates only when the alternate parse yields at least one
detail-likely item.  Returns (items, used URL, next reading index,
fetched URLs). -/
def remoteAlt (env : RemoteEnv) (cfg : RemoteCfg) (elapsed : ℕ → ℕ)
    (q urlPrimary : String) (items0 : List Product) :
    List Product × String × ℕ × List String :=
  let hasDetail := items0.any (fun p => isLikelyProductDetailUrl env.ps p.url)
  let altUrl := "https://www.melaleuca.com/Search?searchTerm="
    ++ env.encode q
  if items0.isEmpty || !hasDetail then
    if elapsed 0 > cfg.budget then (items0, urlPrimary, 1, [])
    else
      match env.fetch altUrl with
      | none => (items0, urlPrimary, 1, [altUrl])
      | some html2 =>
        let parsed := env.parse html2 altUrl
        if !parsed.isEmpty && parsed.any
            (fun p => isLikelyProductDetailUrl env.ps p.url) then
          (parsed, altUrl, 1, [altUrl])
        else (items0, urlPrimary, 1, [altUrl])
  else (items0, urlPrimary, 0, [])

/-- The verify/hydrate stage (`src/server.js` lines 490-495): checks the
elapsed time (reading `k1`) before running `filterAndHydrateDetails`. -/
def remoteVerify (env : RemoteEnv) (cfg : RemoteCfg) (elapsed : ℕ → ℕ)
    (limit : JSNum) (items1 : List Product) (k1 : ℕ) :
    List Product × ℕ × List String :=
  if elapsed k1 ≤ cfg.budget then
    filterAndHydrateDetails env elapsed cfg.budget items1 (k1 + 1)
      (max 3 (jsOr6 limit)) 6 [] []
  else ([], k1 + 1, [])

/-- The external-search and sitemap fallback stage (`src/server.js` lines
496-522): when verification produced nothing, each fallback runs only
after its own elapsed-time check (readings `k2` and `k2 + 1`); an empty
outcome leaves no items at all. -/
def remoteFallbacks (env : RemoteEnv) (cfg : RemoteCfg) (elapsed : ℕ → ℕ)
    (verified : List Product) (k2 : ℕ) :
    List Product × ℕ × List String :=
  if verified.isEmpty then
    if elapsed k2 ≤ cfg.budget then
      let bing := if env.hasCheerio then env.bingRun else ([], [])
      if !bing.1.isEmpty then (bing.1, k2 + 1, bing.2)
      else if elapsed (k2 + 1) ≤ cfg.budget then
        let sm := env.sitemapRun
        if !sm.1.isEmpty then (sm.1, k2 + 2, bing.2 ++ sm.2)
        else ([], k2 + 2, bing.2 ++ sm.2)
      else ([], k2 + 2, bing.2)
    else ([], k2 + 1, [])
  else (verified, k2, [])

/-- The final filter chain (`src/server.js` lines 523-539): keep only
detail-likely URLs, apply the category substring filter and the
finite-max-price filter, then the limit slice. -/
def remoteFilters (env : RemoteEnv) (category : String)
    (maxPrice : Option JSNum) (limit : JSNum) (items2 : List Product) :
    List Product :=
  let items3 := items2.filter (fun p => isLikelyProductDetailUrl env.ps p.url)
  let items4 :=
    if category == "" then items3
    else
      let c := jsNorm category
      items3.filter (fun p =>
        containsSubstr (jsNorm p.category) c
          || containsSubstr (jsNorm p.name) c)
  let items5 :=
    match maxPrice with
    | some (some m) =>
      items4.filter (fun p =>
        match p.price with
        | some pr => decide (pr ≤ m)
        | none => false)
    | _ => items4
  jsSlice limit items5

/-- The thin re-hydration stage (`src/server.js` lines 540-547). -/
def remoteEnrich (env : RemoteEnv) (items6 : List Product) :
    List Product × List String :=
  let thin := items6.filter (fun p =>
    isLikelyProductDetailUrl env.ps p.url && p.description == ""
      && (match p.price with
          | some pr => pr == 0
          | none => true))
  if thin.isEmpty then (items6, [])
  else
    let er := enrichFromDetailPages env items6 4
    if er.2.1 then (prioritizeProducts env.ps er.1, er.2.2)
    else (items6, er.2.2)

/-- The cache-miss body of `searchRemoteProducts` (`src/server.js` lines
462-547): primary fetch and parse, guarded alternate fetch, guarded
verify/hydrate, guarded external-search and sitemap fallbacks, final
detail filter, category and finite-max-price filters, limit slice, thin
re-hydration.  `elapsed` is the oracle of `Date.now() - startTs`
readings, indexed in program order: reading 0 is the alternate-fetch
guard, the next reading is the verify guard, then one reading per
hydration iteration, then the external-search and sitemap guards (the
readings internal to the two abstracted fallback stages are not
indexed).  Returns the final items, the used URL, and the list of URLs
fetched (the unconditionally fetched primary URL first), with the fetch
lists of the hydration, enrichment and abstracted fallback stages
spliced in at their position. -/
def remoteMissCore (env : RemoteEnv) (cfg : RemoteCfg)
    (elapsed : ℕ → ℕ) (q category : String) (maxPrice : Option JSNum)
    (limit : JSNum) (urlPrimary : String) :
    List Product × String × List String :=
  let html := (env.fetch urlPrimary).getD ""
  let items0 := if html == "" then [] else env.parse html urlPrimary
  let step1 := remoteAlt env cfg elapsed q urlPrimary items0
  let items1 := step1.1
  let usedUrl := step1.2.1
  let k1 := step1.2.2.1
  let log1 := step1.2.2.2
  let step2 := remoteVerify env cfg elapsed limit items1 k1
  let verified := step2.1
  let k2 := step2.2.1
  let log2 := step2.2.2
  let step3 := remoteFallbacks env cfg elapsed verified k2
  let items2 := step3.1
  let log3 := step3.2.2
  let items6 := remoteFilters env category maxPrice limit items2
  let step4 := remoteEnrich env items6
  let items7 := step4.1
  let log4 := step4.2
  (items7, usedUrl, urlPrimary :: (log1 ++ log2 ++ log3 ++ log4))

/-- `searchRemoteProducts({ q, category, maxPrice, limit })`
(`src/server.js` lines 452-553): serve a fresh non-empty cache entry, or
run `remoteMissCore` and cache its result exactly when it is non-empty. -/
def searchRemoteProducts (env : RemoteEnv) (cfg : RemoteCfg) (cache : Cache)
    (now : ℕ) (elapsed : ℕ → ℕ) (q category : String)
    (maxPrice : Option JSNum) (limit : JSNum) :
    RemoteResult × Cache × List String :=
  if !cfg.enabled then ({ items := [], url := "", cached := false }, cache, [])
  else
    let key := mkKey "remote" q category maxPrice limit
    let urlPrimary := jsReplaceFirst cfg.template "{q}" (env.encode q)
    let hit :=
      match cacheGet cache key with
      | some e =>
        if !e.items.isEmpty && decide (now - e.ts < cfg.ttl) then some e
        else none
      | none => none
    match hit with
    | some e =>
      ({ items := e.items, url := if e.url == "" then urlPrimary else e.url,
         cached := true }, cache, [])
    | none =>
      let r := remoteMissCore env cfg elapsed q category maxPrice limit
        urlPrimary
      let cache' :=
        if r.1.isEmpty then cache
        else cacheSet cache key { ts := now, items := r.1, url := r.2.1 }
      ({ items := r.1, url := r.2.1, cached := false }, cache', r.2.2)

/-- The `/api/products/search` handler core (`src/server.js` lines
654-679): compute the clamped limit, try the remote pipeline, and fall
back to the local catalog when it returns no items.  Returns
`((items, source, url, cached), cache', fetchLog)`. -/
def endpointSearch (env : RemoteEnv) (cfg : RemoteCfg)
    (catalog : Option (List Product)) (cache : Cache) (now : ℕ)
    (elapsed : ℕ → ℕ) (q category : String) (maxPriceParam : Option JSNum)
    (limitParam : Option JSNum) :
    (List Product × String × String × Bool) × Cache × List String :=
  let maxPrice := maxPriceParam
  let limit := effectiveLimit limitParam
  let r := searchRemoteProducts env cfg cache now elapsed q category
    maxPrice limit
  if !r.1.items.isEmpty then
    ((r.1.items, "web", r.1.url, r.1.cached), r.2.1, r.2.2)
  else
    let l := searchLocalProducts catalog r.2.1 now cfg.ttl q category
      maxPrice limit
    ((l.1.1, "local", "", l.1.2), l.2, r.2.2)

/-- An HTTP response as observed by `httpGet`: a 3xx status with a
`Location` header, a 2xx status with a body, or anything else (which the
code rejects). -/
inductive HttpResp where
  | redirect (loc : String)
  | ok (body : String)
  | fail
deriving DecidableEq

/-- Fuelled observation of `httpGet(url)` (`src/server.js` lines 121-148)
against a fixed `server`.  The source code re-issues
`httpGet(new URL(location, url))` on every 3xx response with no hop
counter whatsoever, so the call tree is an unbounded linear recursion;
`httpGetFuel n` observes its first `n` hops.  `none` means the recursion
is still running after `n` hops; `some (some body)` a 2xx resolution;
`some none` a rejection. -/
def httpGetFuel (server : String → HttpResp)
    (resolve : String → String → String) :
    ℕ → String → Option (Option String)
  | 0, _ => none
  | n + 1, url =>
    match server url with
    | .redirect loc => httpGetFuel server resolve n (resolve loc url)
    | .ok body => some (some body)
    | .fail => some none

/-- Residual-segment decision as worded by the specification: reject when
fewer than two residual segments remain, reject when every residual
segment is drawn from the stop-term set, accept when some residual
segment matches a detail keyword, accept when three or more residual
segments remain, otherwise accept exactly when some residual segment
contains a digit. -/
def claimDetailRest (rest : List String) : Bool :=
  if rest.length < 2 then false
  else if ∀ seg ∈ rest, seg ∈ STOPWORDS then false
  else if ∃ seg ∈ rest, segHasDetailKeyword seg then true
  else if 3 ≤ rest.length then true
  else decide (∃ seg ∈ rest, segHasDigit seg)

/-- The residual segments after the `productstore` marker, as worded by
the specification (`none` when the marker is absent): everything after
the first occurrence of the marker. -/
def claimResidual (parts : List String) : Option (List String) :=
  if "productstore" ∈ parts then
    some ((parts.dropWhile (fun s => !(s == "productstore"))).tail)
  else none

/-- The URL-classification procedure exactly as the specification words
it, over the lowercased path segments. -/
def claimDetailProcedure (parts : List String) : Bool :=
  match claimResidual parts with
  | none => false
  | some rest => claimDetailRest rest

/-- Product A of the specification's ranker example: no detail-classified
URL, zero price, name `x`. -/
def prodA : Product := { name := "x", price := some 0, url := "/home" }

/-- Product B of the ranker example: detail-classified URL, zero price,
name `y`. -/
def prodB : Product :=
  { name := "y", price := some 0, url := "/productstore/p/item1" }

/-- Product C of the ranker example: detail-classified URL, positive
price, name `z`. -/
def prodC : Product :=
  { name := "z", price := some 5, url := "/productstore/p/item2" }

/-- The end-to-end example node of the specification: type `Product`,
name `Citrus Soap`, one offer with price string `$6.99`, relative URL. -/
def citrusNode : JsonLDNode :=
  { atType := some ["Product"], name := "Citrus Soap",
    offers := [{ price := some (.str "$6.99") }],
    url := "/productstore/p/citrus-soap" }

/-- A concrete URL resolver for the examples: a relative URL is made
absolute against the site origin, an absolute URL is kept. -/
def demoResolve (rel _base : String) : String :=
  if "http".toList.isPrefixOf rel.toList then rel
  else "https://www.melaleuca.com" ++ rel

/-- The claimed haystack of the local matcher: the concatenation of
name, description and tags only (the specification omits the category). -/
def claimHay (p : Product) : String :=
  jsNorm p.name ++ " " ++ jsNorm p.description ++ " "
    ++ joinSpace (p.tags.map jsNorm)

/-- The local score exactly as the claim words it: `+2` per distinct
query token present in the name/description/tags concatenation, `+3` when
the full phrase occurs there verbatim, `+2` for an exact category match,
`+1` when the price is within the stated ceiling, plus `0.2` times the
rating. -/
def claimScoreLocal (p : Product) (q category : String)
    (maxPrice : Option JSNum) : ℚ :=
  let hay := claimHay p
  let qq := jsNorm q
  let tokScore : ℚ :=
    if qq == "" then 0
    else
      2 * (((tokenize qq).dedup).filter (fun t => containsSubstr hay t)).length
  let phraseScore : ℚ :=
    if qq == "" then 0 else if containsSubstr hay qq then 3 else 0
  let catScore : ℚ :=
    if category == "" then 0
    else if jsNorm p.category == jsNorm category then 2 else 0
  let priceScore : ℚ :=
    match maxPrice with
    | some (some m) =>
      match p.price with
      | some pr => if pr ≤ m then 1 else 0
      | none => 0
    | some none => 0
    | none => 0
  let ratingScore : ℚ :=
    match p.rating with
    | some r => r * (1 / 5)
    | none => 0
  tokScore + phraseScore + catScore + priceScore + ratingScore

/-- The local score as the claim must be amended: the haystack also
includes the category, and query tokens are counted with multiplicity
(a token repeated in the query scores each time), the remaining summands
unchanged. -/
def amendedScoreLocal (p : Product) (q category : String)
    (maxPrice : Option JSNum) : ℚ :=
  let hay := hayOf p
  let qq := jsNorm q
  (if qq == "" then 0
   else 2 * ((tokenize qq).countP (fun t => containsSubstr hay t) : ℚ))
    + (if qq == "" then (0 : ℚ)
       else if containsSubstr hay qq then 3 else 0)
    + (if category == "" then (0 : ℚ)
       else if jsNorm p.category == jsNorm category then 2 else 0)
    + (match maxPrice with
       | some (some m) =>
         match p.price with
         | some pr => if pr ≤ m then (1 : ℚ) else 0
         | none => 0
       | some none => 0
       | none => 0)
    + (match p.rating with
       | some r => r * (1 / 5)
       | none => 0)

/-- A catalog entry whose only occurrence of `soap` is in its category. -/
def cexProdCat : Product := { name := "x", category := "soap" }

/-- A catalog entry whose name is `soap` (one occurrence). -/
def cexProdName : Product := { name := "soap" }

/-- One call of `prioritizeProducts(heap[r])` against an explicit array
heap: `items.slice()` allocates a fresh copy (appended at the end of the
heap), `.sort` mutates only that copy, and the reference to the copy is
returned; the argument array and every other pre-existing array are left
untouched. -/
def prioritizeProductsCall (ps : String → Option (List String))
    (heap : List (List Product)) (r : ℕ) : List (List Product) × ℕ :=
  (heap ++ [prioritizeProducts ps (heap.getD r [])], heap.length)

/-- A concrete environment for witnesses: every fetch fails, markup
parses to nothing, no cheerio capability, fallbacks empty. -/
def trivialEnv : RemoteEnv :=
  { fetch := fun _ => none, blocks := fun _ => [], parse := fun _ _ => [],
    ps := simpleSegments, resolve := demoResolve, encode := fun s => s,
    hasCheerio := false, bingRun := ([], []), sitemapRun := ([], []) }

/-- A concrete configuration with a zero time budget. -/
def demoCfg : RemoteCfg :=
  { enabled := true, ttl := 100, budget := 0,
    template := "https://www.melaleuca.com/search?q={q}" }

/-- A concrete cache holding one fresh, non-empty remote entry. -/
def demoCache : Cache :=
  [(mkKey "remote" "q" "" none (some 3),
    { ts := 0, items := [prodC], url := "u" })]

/-- A configuration with remote discovery administratively disabled. -/
def disabledCfg : RemoteCfg :=
  { enabled := false, ttl := 100, budget := 12000,
    template := "https://www.melaleuca.com/search?q={q}" }

/-- A server whose responses form a two-node redirect cycle: `a` 3xx to
`b` and `b` 3xx back to `a` (absolute `Location` headers). -/
def cycServer (u : String) : HttpResp :=
  if u == "https://a.example/" then .redirect "https://b.example/"
  else if u == "https://b.example/" then .redirect "https://a.example/"
  else .fail

/-- A catalog of twenty-one products. -/
def bigCatalog : List Product := List.replicate 21 { name := "p" }

end Melaleuca

namespace Melaleuca

theorem detailRest_eq_claim (rest : List String) :
    detailRest rest = claimDetailRest rest := by
  unfold detailRest claimDetailRest
  by_cases h1 : rest.length < 2
  · simp [h1]
  · simp only [if_neg h1]
    by_cases h2 : ∀ seg ∈ rest, seg ∈ STOPWORDS
    · rw [if_pos (by simpa [List.all_eq_true] using h2), if_pos h2]
    · rw [if_neg (by simpa [List.all_eq_true] using h2), if_neg h2]
      by_cases h3 : ∃ seg ∈ rest, segHasDetailKeyword seg
      · rw [if_pos (by simpa [List.any_eq_true] using h3), if_pos h3]
      · rw [if_neg (by simpa [List.any_eq_true] using h3), if_neg h3]
        by_cases h4 : 3 ≤ rest.length
        · simp [h4]
        · rw [if_neg h4, if_neg h4, Bool.eq_iff_iff]
          simp [List.any_eq_true]

theorem isLikelyFromParts_eq_claim (parts : List String) :
    isLikelyFromParts parts = claimDetailProcedure parts := by
  induction parts with
  | nil => rfl
  | cons a rest ih =>
    by_cases h : a = "productstore"
    · subst h
      unfold isLikelyFromParts claimDetailProcedure claimResidual
      simp [detailRest_eq_claim]
    · have hb : (a == "productstore") = false := by
        simpa using h
      unfold isLikelyFromParts claimDetailProcedure claimResidual
      unfold isLikelyFromParts claimDetailProcedure claimResidual at ih
      rw [List.findIdx?_cons]
      simp only [hb, Bool.false_eq_true, if_false, List.findIdx?_succ]
      rw [List.dropWhile_cons]
      simp only [hb, Bool.not_false, if_true]
      have hmem : ("productstore" ∈ a :: rest) ↔ ("productstore" ∈ rest) := by
        simp [List.mem_cons, Ne.symm h]
      by_cases hm : "productstore" ∈ rest
      · rw [if_pos (hmem.mpr hm)]
        rw [if_pos hm] at ih
        cases hfind : rest.findIdx? (· == "productstore") with
        | none =>
          rw [hfind] at ih
          simp only [hfind, Option.map_none]
          exact ih
        | some i =>
          rw [hfind] at ih
          simp only [hfind, Option.map_some, List.drop_succ_cons]
          exact ih
      · rw [if_neg (fun hc => hm (hmem.mp hc))]
        rw [if_neg hm] at ih
        cases hfind : rest.findIdx? (· == "productstore") with
      | none =>
        rw [hfind] at ih
        simp only [hfind, Option.map_none]
        exact ih
      | some i =>
        rw [hfind] at ih
        simp only [hfind, Option.map_some, List.drop_succ_cons]
        exact ih

/-- C1: for every URL, the classifier decides by exactly the claimed
procedure over the lowercased path segments after the `productstore`
marker (marker absent, fewer than two residual segments, or all residual
segments stop-terms reject; a detail keyword, depth at least three, or
otherwise a digit accept); in particular a stop-term-only residual path is
never classified detail-likely (so `/productstore/shop-all` is rejected),
and `/productstore/cat/sku123` is accepted with no keyword match and depth
below three, i.e. only via the digit rule. -/
theorem urlClassifier_decides_by_claimed_procedure :
    (∀ ps u parts, u ≠ "" → ps u = some parts →
      isLikelyProductDetailUrl ps u = claimDetailProcedure parts)
    ∧ (∀ ps u parts, u ≠ "" → ps u = some parts →
        (∀ seg ∈ (parts.dropWhile (fun s => !(s == "productstore"))).tail,
          seg ∈ STOPWORDS) →
        isLikelyProductDetailUrl ps u = false)
    ∧ isLikelyProductDetailUrl simpleSegments "/productstore/shop-all" = false
    ∧ isLikelyProductDetailUrl simpleSegments "/productstore/cat/sku123" = true
    ∧ segHasDetailKeyword "cat" = false
    ∧ segHasDetailKeyword "sku123" = false
    ∧ (["cat", "sku123"] : List String).length < 3
    ∧ segHasDigit "sku123" = true := by
  have key : ∀ ps u parts, u ≠ "" → ps u = some parts →
      isLikelyProductDetailUrl ps u = claimDetailProcedure parts := by
    intro ps u parts hu hps
    unfold isLikelyProductDetailUrl
    rw [if_neg (by simpa using hu), hps]
    exact isLikelyFromParts_eq_claim parts
  refine ⟨key, ?_, by decide, by decide, by decide, by decide, by decide,
    by decide⟩
  intro ps u parts hu hps hstop
  rw [key ps u parts hu hps]
  unfold claimDetailProcedure claimResidual
  by_cases hm : "productstore" ∈ parts
  · rw [if_pos hm]
    show claimDetailRest ((parts.dropWhile (fun s => !(s == "productstore"))).tail) = false
    unfold claimDetailRest
    by_cases h1 :
        ((parts.dropWhile (fun s => !(s == "productstore"))).tail).length < 2
    · rw [if_pos h1]
    · rw [if_neg h1, if_pos hstop]
  · rw [if_neg hm]

/-- Witness: the classifier agrees with the claimed procedure at a
concrete URL and segmentation. -/
theorem urlClassifier_decides_by_claimed_procedure_witness :
    isLikelyProductDetailUrl simpleSegments "/productstore/cat/sku123"
      = claimDetailProcedure ["productstore", "cat", "sku123"] :=
  urlClassifier_decides_by_claimed_procedure.1 simpleSegments
    "/productstore/cat/sku123" ["productstore", "cat", "sku123"]
    (by decide) (by decide)

theorem prodBefore_iff (ps : String → Option (List String)) (a b : Product) :
    prodBefore ps a b ↔
      detailFlag ps b < detailFlag ps a
        ∨ (detailFlag ps b = detailFlag ps a
            ∧ (priceFlag b < priceFlag a
                ∨ (priceFlag b = priceFlag a ∧ nameLen b ≤ nameLen a))) := by
  unfold prodBefore prodCmp
  by_cases h1 : detailFlag ps a ≠ detailFlag ps b
  · simp only [if_pos h1]
    omega
  · simp only [if_neg h1]
    by_cases h2 : priceFlag a ≠ priceFlag b
    · simp only [if_pos h2]
      omega
    · simp only [if_neg h2]
      omega

theorem prodBefore_total (ps : String → Option (List String))
    (a b : Product) : prodBefore ps a b ∨ prodBefore ps b a := by
  rw [prodBefore_iff, prodBefore_iff]
  omega

theorem prodBefore_trans (ps : String → Option (List String))
    {a b c : Product} (hab : prodBefore ps a b) (hbc : prodBefore ps b c) :
    prodBefore ps a c := by
  rw [prodBefore_iff] at hab hbc ⊢
  omega

/-- C5: `prioritizeProducts` is a stable total-order sort: the output is
sorted by the comparator relation (detail-classified URL first, then
positive numeric price, then longer name), is a permutation of the input,
any comparator-sorted sublist of the input — in particular any run of
mutually tied products — survives as a sublist (stability), the
comparator relation is exactly the three-key lexicographic order, and the
specification's example `[A, B, C]` sorts to `[C, B, A]`. -/
theorem prioritizeProducts_stable_total_order :
    (∀ ps (l : List Product),
      List.Sorted (prodBefore ps) (prioritizeProducts ps l))
    ∧ (∀ ps (l : List Product), (prioritizeProducts ps l).Perm l)
    ∧ (∀ ps (l c : List Product), c.Pairwise (prodBefore ps) →
        c.Sublist l → c.Sublist (prioritizeProducts ps l))
    ∧ (∀ ps a b, prodBefore ps a b ↔
        detailFlag ps b < detailFlag ps a
          ∨ (detailFlag ps b = detailFlag ps a
              ∧ (priceFlag b < priceFlag a
                  ∨ (priceFlag b = priceFlag a ∧ nameLen b ≤ nameLen a))))
    ∧ prioritizeProducts simpleSegments [prodA, prodB, prodC]
        = [prodC, prodB, prodA] := by
  refine ⟨?_, ?_, ?_, prodBefore_iff, by decide⟩
  · intro ps l
    haveI : IsTotal Product (prodBefore ps) :=
      ⟨fun a b => prodBefore_total ps a b⟩
    haveI : IsTrans Product (prodBefore ps) :=
      ⟨fun _ _ _ hab hbc => prodBefore_trans ps hab hbc⟩
    exact List.sorted_insertionSort _ l
  · intro ps l
    exact List.perm_insertionSort _ l
  · intro ps l c hr hc
    exact List.sublist_insertionSort hr hc

/-- Witness: stability instantiated at the example list with the sorted
sublist `[C, B]` of ties on the detail key. -/
theorem prioritizeProducts_stable_total_order_witness :
    ([prodB] : List Product).Sublist
      (prioritizeProducts simpleSegments [prodA, prodB, prodC]) :=
  prioritizeProducts_stable_total_order.2.2.1 simpleSegments
    [prodA, prodB, prodC] [prodB] (List.pairwise_singleton _ _) (by decide)

/-- C10: `prioritizeProducts` never mutates its argument — run against an
explicit array heap, the call leaves every pre-existing array (the
argument included) exactly as it was and returns a fresh array — and the
returned array is a permutation of the input array. -/
theorem prioritizeProducts_no_mutation_and_perm :
    (∀ ps heap r i, i < heap.length →
      (prioritizeProductsCall ps heap r).1.getD i ([] : List Product)
        = heap.getD i [])
    ∧ (∀ ps heap r,
        ((prioritizeProductsCall ps heap r).1.getD
            (prioritizeProductsCall ps heap r).2 ([] : List Product)).Perm
          (heap.getD r []))
    ∧ (∀ ps (l : List Product), (prioritizeProducts ps l).Perm l) := by
  refine ⟨?_, ?_, fun ps l => List.perm_insertionSort _ l⟩
  · intro ps heap r i hi
    unfold prioritizeProductsCall
    simp only [List.getD]
    rw [List.get?_append hi]
  · intro ps heap r
    unfold prioritizeProductsCall
    simp only [List.getD]
    rw [List.get?_append_right (Nat.le_refl _)]
    simp only [Nat.sub_self, List.get?_cons_zero, Option.getD_some]
    exact List.perm_insertionSort _ _

/-- Witness: the frame property instantiated on a one-array heap. -/
theorem prioritizeProducts_no_mutation_and_perm_witness :
    (prioritizeProductsCall simpleSegments [[prodA, prodB]] 0).1.getD 0
        ([] : List Product)
      = ([[prodA, prodB]] : List (List Product)).getD 0 [] :=
  prioritizeProducts_no_mutation_and_perm.1 simpleSegments [[prodA, prodB]]
    0 0 (by decide)

theorem parsePrice_citrus : parsePrice (.str "$6.99") = some (699 / 100) := by
  simp [parsePrice, firstNumber, readDecimal, digitsVal]
  norm_num

/-- C2: `normalizeProductFromJSONLD` returns `null` when the declared
type does not include `Product`, when the name is missing or empty, or
when the node has neither a positive parsed price nor a detail-classified
(resolved) URL; otherwise it returns a product carrying the node's name,
the price parsed from the first offer (or its nested price
specification), currency punctuation stripped, and the URL resolved
against the base URL; on the specification's example, price string
`$6.99` parses to the rational `6.99`. -/
theorem normalizeProduct_rejects_and_builds :
    (∀ ps resolve (node : JsonLDNode) (baseUrl : String),
      ("Product" ∉ node.atType.getD [] →
        normalizeProductFromJSONLD ps resolve node baseUrl = none)
      ∧ (node.name = "" →
          normalizeProductFromJSONLD ps resolve node baseUrl = none)
      ∧ (∀ url,
          url = (if node.url == "" then node.url
                 else resolve node.url baseUrl) →
          (¬∃ q, offerPrice node.offers = some q ∧ 0 < q) →
          isLikelyProductDetailUrl ps url = false →
          normalizeProductFromJSONLD ps resolve node baseUrl = none)
      ∧ ("Product" ∈ node.atType.getD [] → node.name ≠ "" →
          ∀ url,
          url = (if node.url == "" then node.url
                 else resolve node.url baseUrl) →
          ((∃ q, offerPrice node.offers = some q ∧ 0 < q)
            ∨ isLikelyProductDetailUrl ps url = true) →
          normalizeProductFromJSONLD ps resolve node baseUrl =
            some { name := node.name,
                   price := some ((offerPrice node.offers).getD 0),
                   category := node.category,
                   description := node.description,
                   url := url, image := node.image, tags := [] }))
    ∧ parsePrice (.str "$6.99") = some (699 / 100) := by
  refine ⟨?_, parsePrice_citrus⟩
  intro ps resolve node baseUrl
  refine ⟨?_, ?_, ?_, ?_⟩
  · intro h
    unfold normalizeProductFromJSONLD
    by_cases h0 : (node.atType == none && !node.hasGraph) = true
    · rw [if_pos h0]
    · rw [if_neg h0, if_pos]
      simp only [Bool.not_eq_true']
      simpa using h
  · intro h
    unfold normalizeProductFromJSONLD
    by_cases h0 : (node.atType == none && !node.hasGraph) = true
    · rw [if_pos h0]
    · rw [if_neg h0]
      by_cases h1 : (!(node.atType.getD []).contains "Product") = true
      · rw [if_pos h1]
      · rw [if_neg h1]
        simp only
        rw [if_pos (by simpa using h)]
  · intro url hurl hnopos hnolikely
    unfold normalizeProductFromJSONLD
    by_cases h0 : (node.atType == none && !node.hasGraph) = true
    · rw [if_pos h0]
    · rw [if_neg h0]
      by_cases h1 : (!(node.atType.getD []).contains "Product") = true
      · rw [if_pos h1]
      · rw [if_neg h1]
        simp only
        by_cases h2 : (node.name == "") = true
        · rw [if_pos h2]
        · rw [if_neg h2]
          have hpos : (match offerPrice node.offers with
              | some q => decide (0 < q)
              | none => false) = false := by
            cases hp : offerPrice node.offers with
            | none => rfl
            | some q =>
              simp only [decide_eq_false_iff_not]
              intro hq
              exact hnopos ⟨q, hp, hq⟩
          rw [← hurl]
          have hcond : (!isLikelyProductDetailUrl ps url
              && !(match offerPrice node.offers with
                   | some q => decide (0 < q)
                   | none => false)) = true := by
            rw [hnolikely, hpos]
            rfl
          rw [if_pos hcond]
  · intro hmem hname url hurl hpass
    unfold normalizeProductFromJSONLD
    have h0 : (node.atType == none && !node.hasGraph) = false := by
      cases ht : node.atType with
      | none => simp [ht] at hmem
      | some l => simp [ht]
    rw [h0]
    simp only [Bool.false_eq_true, if_false]
    have h1 : (!(node.atType.getD []).contains "Product") = false := by
      simpa using hmem
    rw [h1]
    simp only [Bool.false_eq_true, if_false]
    have h2 : (node.name == "") = false := by simpa using hname
    rw [h2]
    simp only [Bool.false_eq_true, if_false]
    rw [← hurl]
    have h3 : (!isLikelyProductDetailUrl ps url
        && !(match offerPrice node.offers with
             | some q => decide (0 < q)
             | none => false)) = false := by
      rcases hpass with ⟨q, hp, hq⟩ | hl
      · rw [hp]
        simp [hq]
      · rw [hl]
        simp
    rw [h3]
    simp only [Bool.false_eq_true, if_false]

/-- Witness: the specification's end-to-end example — a node with type
`Product`, name `Citrus Soap` and offer price `$6.99` normalizes to a
product named `Citrus Soap` with price `6.99` and an absolute URL. -/
theorem normalizeProduct_rejects_and_builds_witness :
    normalizeProductFromJSONLD simpleSegments demoResolve citrusNode
        "https://www.melaleuca.com/search"
      = some { name := "Citrus Soap", price := some (699 / 100),
               category := "", description := "",
               url := "https://www.melaleuca.com/productstore/p/citrus-soap",
               image := none, tags := [] } := by
  have h := (normalizeProduct_rejects_and_builds.1 simpleSegments demoResolve
      citrusNode "https://www.melaleuca.com/search").2.2.2
    (by decide) (by decide)
    "https://www.melaleuca.com/productstore/p/citrus-soap" (by decide)
    (Or.inl ⟨699 / 100, by rw [show offerPrice citrusNode.offers
        = parsePrice (.str "$6.99") from rfl, parsePrice_citrus],
      by norm_num⟩)
  rw [h]
  rw [show offerPrice citrusNode.offers = parsePrice (.str "$6.99") from rfl,
    parsePrice_citrus]
  rfl

end Melaleuca

namespace Melaleuca

theorem scoreLocal_cexProdCat : scoreLocal cexProdCat "soap" "" none = 5 := by
  have h0 : (jsNorm "soap" == "") = false := by decide
  have h1 : List.filter (fun t => containsSubstr (hayOf cexProdCat) t)
      (tokenize (jsNorm "soap")) = ["soap"] := by decide
  have h2 : containsSubstr (hayOf cexProdCat) (jsNorm "soap") = true := by decide
  simp only [scoreLocal]
  rw [h0, h1, h2]
  norm_num [cexProdCat]

theorem claimScore_cexProdCat : claimScoreLocal cexProdCat "soap" "" none = 0 := by
  have h0 : (jsNorm "soap" == "") = false := by decide
  have h1 : List.filter (fun t => containsSubstr (claimHay cexProdCat) t)
      (tokenize (jsNorm "soap")).dedup = [] := by decide
  have h2 : containsSubstr (claimHay cexProdCat) (jsNorm "soap") = false := by
    decide
  simp only [claimScoreLocal]
  rw [h0, h1, h2]
  norm_num [cexProdCat]

theorem scoreLocal_cexProdName :
    scoreLocal cexProdName "soap soap" "" none = 4 := by
  have h0 : (jsNorm "soap soap" == "") = false := by decide
  have h1 : List.filter (fun t => containsSubstr (hayOf cexProdName) t)
      (tokenize (jsNorm "soap soap")) = ["soap", "soap"] := by decide
  have h2 : containsSubstr (hayOf cexProdName) (jsNorm "soap soap") = false := by
    decide
  simp only [scoreLocal]
  rw [h0, h1, h2]
  norm_num [cexProdName]

theorem claimScore_cexProdName :
    claimScoreLocal cexProdName "soap soap" "" none = 2 := by
  have h0 : (jsNorm "soap soap" == "") = false := by decide
  have h1 : List.filter (fun t => containsSubstr (claimHay cexProdName) t)
      (tokenize (jsNorm "soap soap")).dedup = ["soap"] := by decide
  have h2 : containsSubstr (claimHay cexProdName) (jsNorm "soap soap")
      = false := by decide
  simp only [claimScoreLocal]
  rw [h0, h1, h2]
  norm_num [cexProdName]

/-- C6 counterexample: the claimed score formula disagrees with the code.
An entry whose only occurrence of the query token is in its category
scores 5 in the code (the haystack includes the category, so the token
and the full phrase both match) but 0 by the claimed formula; a query
with a repeated token against a name containing it once scores 4 in the
code (each token occurrence counts) but 2 by the claimed formula
(distinct tokens only). -/
theorem scoreLocal_claim_counterexample :
    scoreLocal cexProdCat "soap" "" none = 5
    ∧ claimScoreLocal cexProdCat "soap" "" none = 0
    ∧ scoreLocal cexProdName "soap soap" "" none = 4
    ∧ claimScoreLocal cexProdName "soap soap" "" none = 2
    ∧ (5 : ℚ) ≠ 0 ∧ (4 : ℚ) ≠ 2 :=
  ⟨scoreLocal_cexProdCat, claimScore_cexProdCat, scoreLocal_cexProdName,
    claimScore_cexProdName, by norm_num, by norm_num⟩

/-- C6 as amended: the score is the claimed formula corrected on two
points — the haystack concatenation also includes the category, and
query tokens count with multiplicity rather than distinctly; on the
surviving entries the hard filters hold (numeric price within the
ceiling when one is requested, case-insensitive category equality when
one is requested), every scored pair carries exactly the matcher's
score, the sort stage is a stable descending sort by score (sorted
output, any descending-sorted sublist survives, output a permutation of
its input), and a positive limit truncates the result to at most
`trunc limit` entries. -/
theorem localMatcher_score_sort_truncate_amended :
    (∀ p q category maxPrice,
      scoreLocal p q category maxPrice
        = amendedScoreLocal p q category maxPrice)
    ∧ (∀ catalog q category maxPrice,
        (localSorted catalog q category maxPrice).Pairwise
          (fun a b : Product × ℚ => b.2 ≤ a.2))
    ∧ (∀ catalog q category maxPrice (c : List (Product × ℚ)),
        c.Pairwise (fun a b => b.2 ≤ a.2) →
        c.Sublist (localScored catalog q category maxPrice) →
        c.Sublist (localSorted catalog q category maxPrice))
    ∧ (∀ catalog q category maxPrice,
        (localSorted catalog q category maxPrice).Perm
          (localScored catalog q category maxPrice))
    ∧ (∀ catalog q category maxPrice,
        ∀ x ∈ localScored catalog q category maxPrice,
          x.2 = scoreLocal x.1 q category maxPrice
          ∧ (∀ m : ℚ, maxPrice = some (some m) →
              ∃ pr, x.1.price = some pr ∧ pr ≤ m)
          ∧ (category ≠ "" → jsNorm x.1.category = jsNorm category))
    ∧ (∀ catalog q category maxPrice (q' : ℚ), 0 < q' →
        (localCompute catalog q category maxPrice (some q')).length
          ≤ (jsTrunc q').toNat) := by
  refine ⟨?_, ?_, ?_, ?_, ?_, ?_⟩
  · intro p q category maxPrice
    simp only [scoreLocal, amendedScoreLocal, List.countP_eq_length_filter]
  · intro catalog q category maxPrice
    haveI : IsTotal (Product × ℚ) (fun a b => b.2 ≤ a.2) :=
      ⟨fun a b => le_total b.2 a.2⟩
    haveI : IsTrans (Product × ℚ) (fun a b => b.2 ≤ a.2) :=
      ⟨fun _ _ _ hab hbc => le_trans hbc hab⟩
    exact List.sorted_insertionSort _ _
  · intro catalog q category maxPrice c hr hc
    exact List.sublist_insertionSort hr hc
  · intro catalog q category maxPrice
    exact List.perm_insertionSort _ _
  · intro catalog q category maxPrice x hx
    simp only [localScored] at hx
    rcases List.mem_map.1 hx with ⟨p, hp, rfl⟩
    refine ⟨rfl, ?_, ?_⟩
    · intro m hm
      subst hm
      have hp1 : p ∈ (catalog.getD []).filter (fun p : Product =>
          match p.price, some m with
          | some pr, some m => decide (pr ≤ m)
          | _, _ => false) := by
        by_cases hcat : (category == "") = true
        · rw [if_pos hcat] at hp
          exact hp
        · rw [if_neg hcat] at hp
          exact (List.mem_filter.1 hp).1
      have hpred := (List.mem_filter.1 hp1).2
      cases hpr : p.price with
      | none =>
        rw [hpr] at hpred
        exact absurd hpred (by simp)
      | some pr =>
        rw [hpr] at hpred
        exact ⟨pr, rfl, of_decide_eq_true hpred⟩
    · intro hcat
      have hc : (category == "") = false := by simpa using hcat
      rw [if_neg (by simp [hc]) ] at hp
      have := (List.mem_filter.1 hp).2
      simpa using this
  · intro catalog q category maxPrice q' hq
    simp only [localCompute, jsSlice]
    have h0 : (q' == (0 : ℚ)) = false := by
      simpa using ne_of_gt hq
    rw [h0]
    simp only [Bool.false_eq_true, if_false]
    have ht : jsTrunc q' = ⌊q'⌋ := by
      unfold jsTrunc
      rw [if_neg (not_lt.2 hq.le)]
    have hnonneg : ¬(jsTrunc q' < 0) := by
      rw [ht]
      simp only [not_lt]
      exact Int.le_floor.2 (by exact_mod_cast hq.le)
    rw [if_neg hnonneg]
    exact List.length_take_le _ _

/-- Witness: the truncation bound of the amended claim at a concrete
catalog and limit. -/
theorem localMatcher_score_sort_truncate_amended_witness :
    (localCompute (some [cexProdCat, cexProdName]) "" "" none
        (some 1)).length ≤ (jsTrunc 1).toNat :=
  localMatcher_score_sort_truncate_amended.2.2.2.2.2
    (some [cexProdCat, cexProdName]) "" "" none 1 (by norm_num)

theorem cacheGet_cacheSet (c : Cache) (k : CacheKey) (e : CacheEntry) :
    cacheGet (cacheSet c k e) k = some e := by
  unfold cacheGet cacheSet
  rw [List.find?_cons_of_pos _ (by simp)]
  rfl

theorem searchLocal_none_eq (catalog : Option (List Product))
    (cache : Cache) (now ttl : ℕ) (q category : String)
    (maxPrice : Option JSNum) (limit : JSNum)
    (hg : cacheGet cache (mkKey "local" q category maxPrice limit) = none) :
    searchLocalProducts catalog cache now ttl q category maxPrice limit
      = ((localCompute catalog q category maxPrice limit, false),
         cacheSet cache (mkKey "local" q category maxPrice limit)
           { ts := now,
             items := localCompute catalog q category maxPrice limit }) := by
  simp only [searchLocalProducts]
  rw [hg]

theorem searchLocal_stale_eq (catalog : Option (List Product))
    (cache : Cache) (now ttl : ℕ) (q category : String)
    (maxPrice : Option JSNum) (limit : JSNum) (e : CacheEntry)
    (hg : cacheGet cache (mkKey "local" q category maxPrice limit) = some e)
    (hf : ¬ now - e.ts < ttl) :
    searchLocalProducts catalog cache now ttl q category maxPrice limit
      = ((localCompute catalog q category maxPrice limit, false),
         cacheSet cache (mkKey "local" q category maxPrice limit)
           { ts := now,
             items := localCompute catalog q category maxPrice limit }) := by
  simp only [searchLocalProducts]
  rw [hg]
  exact if_neg hf

theorem searchLocal_fresh_hit (catalog : Option (List Product))
    (cache : Cache) (now ttl : ℕ) (q category : String)
    (maxPrice : Option JSNum) (limit : JSNum) (e : CacheEntry)
    (hg : cacheGet cache (mkKey "local" q category maxPrice limit) = some e)
    (hf : now - e.ts < ttl) :
    searchLocalProducts catalog cache now ttl q category maxPrice limit
      = ((e.items, true), cache) := by
  simp only [searchLocalProducts]
  rw [hg]
  exact if_pos hf

theorem searchLocal_cache_write (catalog : Option (List Product))
    (cache : Cache) (now ttl : ℕ) (q category : String)
    (maxPrice : Option JSNum) (limit : JSNum)
    (h : (searchLocalProducts catalog cache now ttl q category maxPrice
      limit).1.2 = false) :
    cacheGet (searchLocalProducts catalog cache now ttl q category maxPrice
        limit).2 (mkKey "local" q category maxPrice limit)
      = some { ts := now,
               items := (searchLocalProducts catalog cache now ttl q
                 category maxPrice limit).1.1 } := by
  cases hg : cacheGet cache (mkKey "local" q category maxPrice limit) with
  | none =>
    rw [searchLocal_none_eq catalog cache now ttl q category maxPrice
      limit hg]
    exact cacheGet_cacheSet _ _ _
  | some e =>
    by_cases hf : now - e.ts < ttl
    · rw [searchLocal_fresh_hit catalog cache now ttl q category maxPrice
        limit e hg hf] at h
      exact absurd h (by simp)
    · rw [searchLocal_stale_eq catalog cache now ttl q category maxPrice
        limit e hg hf]
      exact cacheGet_cacheSet _ _ _

/-- C9: unlike the remote cache, `searchLocalProducts` caches every
computed result — an empty list included — under the `local` key; a
repeated identical query within the TTL returns exactly that cached list
with `cached = true` and does not consult the catalog at all (any other
catalog gives the same answer); and a missing or malformed catalog is
handled as an empty catalog, still producing a result. -/
theorem searchLocal_caches_everything :
    (∀ catalog cache now ttl q category maxPrice limit,
      (searchLocalProducts catalog cache now ttl q category maxPrice
          limit).1.2 = false →
        cacheGet (searchLocalProducts catalog cache now ttl q category
            maxPrice limit).2 (mkKey "local" q category maxPrice limit)
          = some { ts := now,
                   items := (searchLocalProducts catalog cache now ttl q
                     category maxPrice limit).1.1 })
    ∧ (∀ catalog catalog' cache now now' ttl q category maxPrice limit,
        (searchLocalProducts catalog cache now ttl q category maxPrice
            limit).1.2 = false →
        now' - now < ttl →
        searchLocalProducts catalog'
            (searchLocalProducts catalog cache now ttl q category maxPrice
              limit).2 now' ttl q category maxPrice limit
          = (((searchLocalProducts catalog cache now ttl q category
                maxPrice limit).1.1, true),
             (searchLocalProducts catalog cache now ttl q category maxPrice
               limit).2))
    ∧ (∀ cache now ttl q category maxPrice limit,
        searchLocalProducts none cache now ttl q category maxPrice limit
          = searchLocalProducts (some []) cache now ttl q category maxPrice
              limit) := by
  refine ⟨searchLocal_cache_write, ?_, ?_⟩
  · intro catalog catalog' cache now now' ttl q category maxPrice limit h hf
    have hset := searchLocal_cache_write catalog cache now ttl q category
      maxPrice limit h
    exact searchLocal_fresh_hit catalog' _ now' ttl q category maxPrice
      limit _ hset hf
  · intro cache now ttl q category maxPrice limit
    rfl

/-- Witness: a first local query on an absent catalog computes and
caches; the identical query five time units later is served from the
cache with `cached = true`, whatever catalog is now on disk. -/
theorem searchLocal_caches_everything_witness :
    searchLocalProducts (some [cexProdCat])
        ((searchLocalProducts none [] 0 10 "q" "" none (some 3)).2) 5 10
        "q" "" none (some 3)
      = (((searchLocalProducts none [] 0 10 "q" "" none (some 3)).1.1,
          true),
         (searchLocalProducts none [] 0 10 "q" "" none (some 3)).2) :=
  searchLocal_caches_everything.2.1 none (some [cexProdCat]) [] 0 5 10 "q"
    "" none (some 3) rfl (by decide)

theorem searchRemote_disabled_eq (env : RemoteEnv) (cfg : RemoteCfg)
    (cache : Cache) (now : ℕ) (elapsed : ℕ → ℕ) (q category : String)
    (maxPrice : Option JSNum) (limit : JSNum) (hen : cfg.enabled = false) :
    searchRemoteProducts env cfg cache now elapsed q category maxPrice limit
      = ({ items := [], url := "", cached := false }, cache, []) := by
  simp only [searchRemoteProducts, hen]
  rfl

theorem searchRemote_hit_eq (env : RemoteEnv) (cfg : RemoteCfg)
    (cache : Cache) (now : ℕ) (elapsed : ℕ → ℕ) (q category : String)
    (maxPrice : Option JSNum) (limit : JSNum) (e : CacheEntry)
    (hen : cfg.enabled = true)
    (hg : cacheGet cache (mkKey "remote" q category maxPrice limit)
      = some e)
    (hc : (!e.items.isEmpty && decide (now - e.ts < cfg.ttl)) = true) :
    searchRemoteProducts env cfg cache now elapsed q category maxPrice limit
      = ({ items := e.items,
           url := if e.url == "" then
               jsReplaceFirst cfg.template "{q}" (env.encode q)
             else e.url,
           cached := true }, cache, []) := by
  simp only [searchRemoteProducts, hen, Bool.not_true, Bool.false_eq_true,
    if_false]
  rw [hg]
  simp [hc]

theorem searchRemote_missSome_eq (env : RemoteEnv) (cfg : RemoteCfg)
    (cache : Cache) (now : ℕ) (elapsed : ℕ → ℕ) (q category : String)
    (maxPrice : Option JSNum) (limit : JSNum) (e : CacheEntry)
    (hen : cfg.enabled = true)
    (hg : cacheGet cache (mkKey "remote" q category maxPrice limit)
      = some e)
    (hc : (!e.items.isEmpty && decide (now - e.ts < cfg.ttl)) = false) :
    searchRemoteProducts env cfg cache now elapsed q category maxPrice limit
      = (let urlPrimary := jsReplaceFirst cfg.template "{q}" (env.encode q)
         let r := remoteMissCore env cfg elapsed q category maxPrice limit
           urlPrimary
         ({ items := r.1, url := r.2.1, cached := false },
          (if r.1.isEmpty then cache
           else cacheSet cache (mkKey "remote" q category maxPrice limit)
             { ts := now, items := r.1, url := r.2.1 }), r.2.2)) := by
  simp only [searchRemoteProducts, hen, Bool.not_true, Bool.false_eq_true,
    if_false]
  rw [hg]
  simp [hc]

theorem searchRemote_missNone_eq (env : RemoteEnv) (cfg : RemoteCfg)
    (cache : Cache) (now : ℕ) (elapsed : ℕ → ℕ) (q category : String)
    (maxPrice : Option JSNum) (limit : JSNum)
    (hen : cfg.enabled = true)
    (hg : cacheGet cache (mkKey "remote" q category maxPrice limit)
      = none) :
    searchRemoteProducts env cfg cache now elapsed q category maxPrice limit
      = (let urlPrimary := jsReplaceFirst cfg.template "{q}" (env.encode q)
         let r := remoteMissCore env cfg elapsed q category maxPrice limit
           urlPrimary
         ({ items := r.1, url := r.2.1, cached := false },
          (if r.1.isEmpty then cache
           else cacheSet cache (mkKey "remote" q category maxPrice limit)
             { ts := now, items := r.1, url := r.2.1 }), r.2.2)) := by
  simp only [searchRemoteProducts, hen, Bool.not_true, Bool.false_eq_true,
    if_false]
  rw [hg]

theorem remoteCache_served_fresh (env : RemoteEnv) (cfg : RemoteCfg)
    (cache : Cache) (now : ℕ) (elapsed : ℕ → ℕ) (q category : String)
    (maxPrice : Option JSNum) (limit : JSNum)
    (h : (searchRemoteProducts env cfg cache now elapsed q category
      maxPrice limit).1.cached = true) :
    ∃ e, cacheGet cache (mkKey "remote" q category maxPrice limit) = some e
      ∧ e.items ≠ [] ∧ now - e.ts < cfg.ttl
      ∧ (searchRemoteProducts env cfg cache now elapsed q category maxPrice
          limit).1.items = e.items
      ∧ (searchRemoteProducts env cfg cache now elapsed q category maxPrice
          limit).2.1 = cache := by
  cases hen : cfg.enabled with
  | false =>
    rw [searchRemote_disabled_eq env cfg cache now elapsed q category
      maxPrice limit hen] at h
    exact absurd h (by simp)
  | true =>
    cases hg : cacheGet cache (mkKey "remote" q category maxPrice limit) with
    | none =>
      rw [searchRemote_missNone_eq env cfg cache now elapsed q category
        maxPrice limit hen hg] at h
      exact absurd h (by simp)
    | some e =>
      cases hc : (!e.items.isEmpty && decide (now - e.ts < cfg.ttl)) with
      | false =>
        rw [searchRemote_missSome_eq env cfg cache now elapsed q category
          maxPrice limit e hen hg hc] at h
        exact absurd h (by simp)
      | true =>
        have heq := searchRemote_hit_eq env cfg cache now elapsed q category
          maxPrice limit e hen hg hc
        rw [Bool.and_eq_true_iff] at hc
        have hne : e.items ≠ [] := by
          have h1 := hc.1
          simp only [Bool.not_eq_true'] at h1
          exact List.isEmpty_eq_false.mp h1
        have hf : now - e.ts < cfg.ttl := of_decide_eq_true hc.2
        refine ⟨e, rfl, hne, hf, ?_, ?_⟩
        · rw [heq]
        · rw [heq]

theorem remoteCache_stale_not_served (env : RemoteEnv) (cfg : RemoteCfg)
    (cache : Cache) (now : ℕ) (elapsed : ℕ → ℕ) (q category : String)
    (maxPrice : Option JSNum) (limit : JSNum) (e : CacheEntry)
    (hg : cacheGet cache (mkKey "remote" q category maxPrice limit)
      = some e)
    (hbad : e.items = [] ∨ ¬(now - e.ts < cfg.ttl)) :
    (searchRemoteProducts env cfg cache now elapsed q category maxPrice
      limit).1.cached = false := by
  cases hen : cfg.enabled with
  | false =>
    rw [searchRemote_disabled_eq env cfg cache now elapsed q category
      maxPrice limit hen]
  | true =>
    have hc : (!e.items.isEmpty && decide (now - e.ts < cfg.ttl)) = false := by
      rcases hbad with hb | hb
      · simp [hb]
      · simp [hb]
    rw [searchRemote_missSome_eq env cfg cache now elapsed q category
      maxPrice limit e hen hg hc]

theorem remoteCache_no_write_on_empty (env : RemoteEnv) (cfg : RemoteCfg)
    (cache : Cache) (now : ℕ) (elapsed : ℕ → ℕ) (q category : String)
    (maxPrice : Option JSNum) (limit : JSNum)
    (h : (searchRemoteProducts env cfg cache now elapsed q category
      maxPrice limit).1.items = []) :
    (searchRemoteProducts env cfg cache now elapsed q category maxPrice
      limit).2.1 = cache := by
  cases hen : cfg.enabled with
  | false =>
    rw [searchRemote_disabled_eq env cfg cache now elapsed q category
      maxPrice limit hen]
  | true =>
    cases hg : cacheGet cache (mkKey "remote" q category maxPrice limit) with
    | none =>
      rw [searchRemote_missNone_eq env cfg cache now elapsed q category
        maxPrice limit hen hg] at h ⊢
      simp only at h ⊢
      simp [h]
    | some e =>
      cases hc : (!e.items.isEmpty && decide (now - e.ts < cfg.ttl)) with
      | false =>
        rw [searchRemote_missSome_eq env cfg cache now elapsed q category
          maxPrice limit e hen hg hc] at h ⊢
        simp only at h ⊢
        simp [h]
      | true =>
        rw [searchRemote_hit_eq env cfg cache now elapsed q category
          maxPrice limit e hen hg hc]

theorem remoteCache_write_on_nonempty (env : RemoteEnv) (cfg : RemoteCfg)
    (cache : Cache) (now : ℕ) (elapsed : ℕ → ℕ) (q category : String)
    (maxPrice : Option JSNum) (limit : JSNum)
    (hcf : (searchRemoteProducts env cfg cache now elapsed q category
      maxPrice limit).1.cached = false)
    (hne : (searchRemoteProducts env cfg cache now elapsed q category
      maxPrice limit).1.items ≠ []) :
    cacheGet (searchRemoteProducts env cfg cache now elapsed q category
        maxPrice limit).2.1 (mkKey "remote" q category maxPrice limit)
      = some { ts := now,
               items := (searchRemoteProducts env cfg cache now elapsed q
                 category maxPrice limit).1.items,
               url := (searchRemoteProducts env cfg cache now elapsed q
                 category maxPrice limit).1.url } := by
  cases hen : cfg.enabled with
  | false =>
    rw [searchRemote_disabled_eq env cfg cache now elapsed q category
      maxPrice limit hen] at hne
    exact absurd rfl hne
  | true =>
    cases hg : cacheGet cache (mkKey "remote" q category maxPrice limit) with
    | none =>
      rw [searchRemote_missNone_eq env cfg cache now elapsed q category
        maxPrice limit hen hg] at hne ⊢
      simp only at hne ⊢
      rw [if_neg (by simpa [List.isEmpty_iff] using hne)]
      exact cacheGet_cacheSet _ _ _
    | some e =>
      cases hc : (!e.items.isEmpty && decide (now - e.ts < cfg.ttl)) with
      | false =>
        rw [searchRemote_missSome_eq env cfg cache now elapsed q category
          maxPrice limit e hen hg hc] at hne ⊢
        simp only at hne ⊢
        rw [if_neg (by simpa [List.isEmpty_iff] using hne)]
        exact cacheGet_cacheSet _ _ _
      | true =>
        rw [searchRemote_hit_eq env cfg cache now elapsed q category
          maxPrice limit e hen hg hc] at hcf
        exact absurd hcf (by simp)

theorem remoteCache_empty_then_retry (env env' : RemoteEnv)
    (cfg : RemoteCfg) (cache : Cache) (now now' : ℕ)
    (elapsed elapsed' : ℕ → ℕ) (q category : String)
    (maxPrice : Option JSNum) (limit : JSNum)
    (h : (searchRemoteProducts env cfg cache now elapsed q category
      maxPrice limit).1.items = [])
    (hle : now ≤ now') :
    (searchRemoteProducts env' cfg
        (searchRemoteProducts env cfg cache now elapsed q category maxPrice
          limit).2.1 now' elapsed' q category maxPrice limit).1.cached
      = false := by
  have hcc := remoteCache_no_write_on_empty env cfg cache now elapsed q
    category maxPrice limit h
  rw [hcc]
  cases hen : cfg.enabled with
  | false =>
    rw [searchRemote_disabled_eq env' cfg cache now' elapsed' q category
      maxPrice limit hen]
  | true =>
    cases hg : cacheGet cache (mkKey "remote" q category maxPrice limit) with
    | none =>
      rw [searchRemote_missNone_eq env' cfg cache now' elapsed' q category
        maxPrice limit hen hg]
    | some e =>
      cases hc : (!e.items.isEmpty && decide (now - e.ts < cfg.ttl)) with
      | true =>
        rw [searchRemote_hit_eq env cfg cache now elapsed q category
          maxPrice limit e hen hg hc] at h
        simp only at h
        rw [h] at hc
        simp at hc
      | false =>
        refine remoteCache_stale_not_served env' cfg cache now' elapsed' q
          category maxPrice limit e hg ?_
        rcases Bool.and_eq_false_iff.mp hc with hb | hb
        · left
          simp only [Bool.not_eq_false'] at hb
          exact List.isEmpty_eq_true.mp hb
        · right
          intro hlt
          have hmono : now - e.ts ≤ now' - e.ts := Nat.sub_le_sub_right hle _
          exact absurd (decide_eq_true (Nat.lt_of_le_of_lt hmono hlt))
            (by simp [hb])

/-- C3: the remote search cache serves a stored entry only when it is
younger than the TTL and non-empty (an entry that is empty or older than
its TTL is never served), a miss never mutates the cache when the remote
resolution came back empty, a non-empty freshly-computed result is
written under the query key, and after an empty result the identical
query re-attempts remote resolution (its lookup is again a miss). -/
theorem remoteCache_policy :
    (∀ env cfg cache now elapsed q category maxPrice limit,
      (searchRemoteProducts env cfg cache now elapsed q category maxPrice
          limit).1.cached = true →
        ∃ e, cacheGet cache (mkKey "remote" q category maxPrice limit)
            = some e
          ∧ e.items ≠ [] ∧ now - e.ts < cfg.ttl
          ∧ (searchRemoteProducts env cfg cache now elapsed q category
              maxPrice limit).1.items = e.items
          ∧ (searchRemoteProducts env cfg cache now elapsed q category
              maxPrice limit).2.1 = cache)
    ∧ (∀ env cfg cache now elapsed q category maxPrice limit e,
        cacheGet cache (mkKey "remote" q category maxPrice limit) = some e →
        (e.items = [] ∨ ¬(now - e.ts < cfg.ttl)) →
        (searchRemoteProducts env cfg cache now elapsed q category maxPrice
          limit).1.cached = false)
    ∧ (∀ env cfg cache now elapsed q category maxPrice limit,
        (searchRemoteProducts env cfg cache now elapsed q category maxPrice
            limit).1.items = [] →
        (searchRemoteProducts env cfg cache now elapsed q category maxPrice
          limit).2.1 = cache)
    ∧ (∀ env cfg cache now elapsed q category maxPrice limit,
        (searchRemoteProducts env cfg cache now elapsed q category maxPrice
            limit).1.cached = false →
        (searchRemoteProducts env cfg cache now elapsed q category maxPrice
            limit).1.items ≠ [] →
        cacheGet (searchRemoteProducts env cfg cache now elapsed q category
            maxPrice limit).2.1 (mkKey "remote" q category maxPrice limit)
          = some { ts := now,
                   items := (searchRemoteProducts env cfg cache now elapsed
                     q category maxPrice limit).1.items,
                   url := (searchRemoteProducts env cfg cache now elapsed q
                     category maxPrice limit).1.url })
    ∧ (∀ env env' cfg cache now now' elapsed elapsed' q category maxPrice
          limit,
        (searchRemoteProducts env cfg cache now elapsed q category maxPrice
            limit).1.items = [] →
        now ≤ now' →
        (searchRemoteProducts env' cfg
            (searchRemoteProducts env cfg cache now elapsed q category
              maxPrice limit).2.1 now' elapsed' q category maxPrice
            limit).1.cached = false) :=
  ⟨remoteCache_served_fresh, remoteCache_stale_not_served,
    remoteCache_no_write_on_empty, remoteCache_write_on_nonempty,
    remoteCache_empty_then_retry⟩

/-- Witness: a fresh non-empty cached entry is served — the stored items
come back, the age bound holds, and the cache is untouched. -/
theorem remoteCache_policy_witness :
    ∃ e, cacheGet demoCache (mkKey "remote" "q" "" none (some 3)) = some e
      ∧ e.items ≠ [] ∧ 1 - e.ts < demoCfg.ttl
      ∧ (searchRemoteProducts trivialEnv demoCfg demoCache 1 (fun _ => 0)
          "q" "" none (some 3)).1.items = e.items
      ∧ (searchRemoteProducts trivialEnv demoCfg demoCache 1 (fun _ => 0)
          "q" "" none (some 3)).2.1 = demoCache :=
  remoteCache_policy.1 trivialEnv demoCfg demoCache 1 (fun _ => 0) "q" ""
    none (some 3) rfl

theorem jsSlice_nil {α : Type} (limit : JSNum) :
    jsSlice limit ([] : List α) = [] := by
  cases limit with
  | none => rfl
  | some q =>
    simp only [jsSlice]
    split
    · rfl
    · split <;> simp

theorem remoteAlt_budget (env : RemoteEnv) (cfg : RemoteCfg)
    (elapsed : ℕ → ℕ) (q urlPrimary : String) (items0 : List Product)
    (h : ∀ k, cfg.budget < elapsed k) :
    (remoteAlt env cfg elapsed q urlPrimary items0).1 = items0
    ∧ (remoteAlt env cfg elapsed q urlPrimary items0).2.1 = urlPrimary
    ∧ (remoteAlt env cfg elapsed q urlPrimary items0).2.2.2 = [] := by
  simp only [remoteAlt]
  split
  · rw [if_pos (h 0)]
    exact ⟨rfl, rfl, rfl⟩
  · exact ⟨rfl, rfl, rfl⟩

theorem remoteVerify_budget (env : RemoteEnv) (cfg : RemoteCfg)
    (elapsed : ℕ → ℕ) (limit : JSNum) (items1 : List Product) (k1 : ℕ)
    (h : ∀ k, cfg.budget < elapsed k) :
    remoteVerify env cfg elapsed limit items1 k1 = ([], k1 + 1, []) := by
  simp only [remoteVerify]
  rw [if_neg (not_le.2 (h k1))]

theorem remoteFallbacks_budget (env : RemoteEnv) (cfg : RemoteCfg)
    (elapsed : ℕ → ℕ) (k2 : ℕ) (h : ∀ k, cfg.budget < elapsed k) :
    remoteFallbacks env cfg elapsed [] k2 = ([], k2 + 1, []) := by
  simp only [remoteFallbacks, List.isEmpty_nil, if_true]
  rw [if_neg (not_le.2 (h k2))]

theorem remoteFilters_nil (env : RemoteEnv) (category : String)
    (maxPrice : Option JSNum) (limit : JSNum) :
    remoteFilters env category maxPrice limit [] = [] := by
  simp only [remoteFilters, List.filter_nil]
  have h4 : (if (category == "") = true then ([] : List Product) else [])
      = [] := by
    split <;> rfl
  rw [h4]
  cases maxPrice with
  | none => exact jsSlice_nil limit
  | some mp =>
    cases mp with
    | none => exact jsSlice_nil limit
    | some m =>
      simp only [List.filter_nil]
      exact jsSlice_nil limit

theorem remoteEnrich_nil (env : RemoteEnv) :
    remoteEnrich env [] = ([], []) := rfl

theorem remoteMissCore_budget (env : RemoteEnv) (cfg : RemoteCfg)
    (elapsed : ℕ → ℕ) (q category : String) (maxPrice : Option JSNum)
    (limit : JSNum) (urlPrimary : String)
    (h : ∀ k, cfg.budget < elapsed k) :
    remoteMissCore env cfg elapsed q category maxPrice limit urlPrimary
      = ([], urlPrimary, [urlPrimary]) := by
  simp only [remoteMissCore]
  obtain ⟨h1, h2, h3⟩ := remoteAlt_budget env cfg elapsed q urlPrimary
    (if ((env.fetch urlPrimary).getD "" == "") = true then []
     else env.parse ((env.fetch urlPrimary).getD "") urlPrimary) h
  rw [h1, h2, h3]
  rw [remoteVerify_budget env cfg elapsed limit _ _ h]
  rw [remoteFallbacks_budget env cfg elapsed _ h]
  rw [remoteFilters_nil env category maxPrice limit]
  rw [remoteEnrich_nil env]
  rfl

/-- C4 counterexample: with a 0 ms budget and 0 ms elapsed at every
check, the pipeline still issues network fetches — the primary search
URL unconditionally, and (because the alternate guard compares strictly)
the alternate search URL as well — refuting both "terminates immediately
... without issuing any network fetch" and "every stage checks elapsed
time against the budget before starting its fetch work". -/
theorem remotePipeline_zero_budget_counterexample :
    demoCfg.budget = 0
    ∧ (searchRemoteProducts trivialEnv demoCfg [] 0 (fun _ => 0) "q" ""
          none (some 3)).2.2
        = ["https://www.melaleuca.com/search?q=q",
           "https://www.melaleuca.com/Search?searchTerm=q"]
    ∧ (["https://www.melaleuca.com/search?q=q",
        "https://www.melaleuca.com/Search?searchTerm=q"] : List String)
        ≠ [] := by
  refine ⟨rfl, ?_, by decide⟩
  decide

/-- C4 as amended: the primary fetch is issued unconditionally (the log
of fetched URLs always starts with the primary URL), but every later
stage checks elapsed time against the budget before its fetch work, so
when every reading strictly exceeds the budget the pipeline performs
exactly the one primary fetch, produces no items, and the search
endpoint falls through to the local catalog. -/
theorem remotePipeline_budget_guards_amended :
    (∀ env cfg elapsed q category maxPrice limit urlPrimary,
      ∃ t, (remoteMissCore env cfg elapsed q category maxPrice limit
        urlPrimary).2.2 = urlPrimary :: t)
    ∧ (∀ env cfg elapsed q category maxPrice limit urlPrimary,
        (∀ k, cfg.budget < elapsed k) →
        remoteMissCore env cfg elapsed q category maxPrice limit urlPrimary
          = ([], urlPrimary, [urlPrimary]))
    ∧ (∀ env cfg catalog cache now elapsed q category maxPriceParam
          limitParam,
        cfg.enabled = true →
        cacheGet cache (mkKey "remote" q category maxPriceParam
          (effectiveLimit limitParam)) = none →
        (∀ k, cfg.budget < elapsed k) →
        (endpointSearch env cfg catalog cache now elapsed q category
          maxPriceParam limitParam).1.2.1 = "local") := by
  refine ⟨?_, ?_, ?_⟩
  · intro env cfg elapsed q category maxPrice limit urlPrimary
    exact ⟨_, rfl⟩
  · intro env cfg elapsed q category maxPrice limit urlPrimary h
    exact remoteMissCore_budget env cfg elapsed q category maxPrice limit
      urlPrimary h
  · intro env cfg catalog cache now elapsed q category maxPriceParam
      limitParam hen hg h
    simp only [endpointSearch]
    rw [searchRemote_missNone_eq env cfg cache now elapsed q category
      maxPriceParam (effectiveLimit limitParam) hen hg]
    simp only
    rw [remoteMissCore_budget env cfg elapsed q category maxPriceParam
      (effectiveLimit limitParam) _ h]
    simp

/-- Witness: the amended budget property at a concrete environment where
every elapsed reading exceeds the zero budget. -/
theorem remotePipeline_budget_guards_amended_witness :
    remoteMissCore trivialEnv demoCfg (fun _ => 1) "q" "" none (some 3) "u"
      = ([], "u", ["u"]) :=
  remotePipeline_budget_guards_amended.2.1 trivialEnv demoCfg (fun _ => 1)
    "q" "" none (some 3) "u" (fun _ => Nat.one_pos)

/-- C7: `httpGet` does follow each 3xx by re-issuing the request against
the `Location` target resolved against the current URL, but the source
imposes no hop bound at all: against a server whose responses form a
redirect cycle, the recursion never finishes — after any number `n` of
hops the computation is still running (`none` at every fuel), instead of
failing after a bounded (about 10) number of hops as specified. -/
theorem httpGet_redirect_cycle_diverges :
    (∀ server resolve (n : ℕ) url loc, server url = .redirect loc →
      httpGetFuel server resolve (n + 1) url
        = httpGetFuel server resolve n (resolve loc url))
    ∧ (∀ n : ℕ,
        httpGetFuel cycServer (fun loc _ => loc) n "https://a.example/"
            = none
        ∧ httpGetFuel cycServer (fun loc _ => loc) n "https://b.example/"
            = none) := by
  constructor
  · intro server resolve n url loc hs
    simp only [httpGetFuel, hs]
  · intro n
    induction n with
    | zero => exact ⟨rfl, rfl⟩
    | succ n ih =>
      constructor
      · have hstep : httpGetFuel cycServer (fun loc _ => loc) (n + 1)
            "https://a.example/"
            = httpGetFuel cycServer (fun loc _ => loc) n
              "https://b.example/" := by
          simp only [httpGetFuel]
          rw [show cycServer "https://a.example/"
            = .redirect "https://b.example/" from rfl]
        rw [hstep]
        exact ih.2
      · have hstep : httpGetFuel cycServer (fun loc _ => loc) (n + 1)
            "https://b.example/"
            = httpGetFuel cycServer (fun loc _ => loc) n
              "https://a.example/" := by
          simp only [httpGetFuel]
          rw [show cycServer "https://b.example/"
            = .redirect "https://a.example/" from rfl]
        rw [hstep]
        exact ih.1

/-- Witness: one hop of the cycle — the request against `a` is re-issued
against the resolved `Location` target `b`. -/
theorem httpGet_redirect_cycle_diverges_witness :
    httpGetFuel cycServer (fun loc _ => loc) 1 "https://a.example/"
      = httpGetFuel cycServer (fun loc _ => loc) 0 "https://b.example/" :=
  httpGet_redirect_cycle_diverges.1 cycServer (fun loc _ => loc) 0
    "https://a.example/" "https://b.example/" rfl

/-- C8 counterexample: a `limit` query parameter that does not parse to a
number makes `Math.max(1, Math.min(20, Number(limitParam)))` evaluate to
`NaN`, which is not in `[1, 20]` and is falsy, so `slice` is never
applied: against a 21-entry catalog the endpoint returns all 21 items,
exceeding every claimed bound. -/
theorem limitClamp_nan_counterexample :
    effectiveLimit (some none) = none
    ∧ (endpointSearch trivialEnv disabledCfg (some bigCatalog) [] 0
        (fun _ => 0) "" "" none (some none)).1.1.length = 21
    ∧ ¬(21 ≤ 20) := by
  refine ⟨rfl, ?_, by norm_num⟩
  simp only [endpointSearch]
  rw [searchRemote_disabled_eq trivialEnv disabledCfg [] 0 (fun _ => 0) ""
    "" none (effectiveLimit (some none)) rfl]
  simp only [List.isEmpty_nil, Bool.not_true, Bool.false_eq_true, if_false]
  rw [searchLocal_none_eq (some bigCatalog) [] 0 disabledCfg.ttl "" "" none
    (effectiveLimit (some none)) rfl]
  show (localCompute (some bigCatalog) "" "" none none).length = 21
  simp only [localCompute, jsSlice, localSorted]
  rw [List.length_map, (List.perm_insertionSort
    (fun a b : Product × ℚ => b.2 ≤ a.2) _).length_eq]
  simp [localScored, bigCatalog]

theorem enrichFromDetailPages_length (env : RemoteEnv) :
    ∀ (l : List Product) (allow : ℕ),
      (enrichFromDetailPages env l allow).1.length = l.length := by
  intro l
  induction l with
  | nil => intro allow; rfl
  | cons p rest ih =>
    intro allow
    simp only [enrichFromDetailPages]
    split
    · rfl
    · split
      · simp only [List.length_cons, ih]
      · split
        · simp only [List.length_cons, ih]
        · split
          · simp only [List.length_cons, ih]
          · split
            · simp only [List.length_cons, ih]
            · simp only [List.length_cons, ih]

theorem jsSlice_clamped_le (l : List Product) (qv : ℚ) :
    (jsSlice (some (max 1 (min 20 qv))) l).length ≤ 20 := by
  have hc1 : (1 : ℚ) ≤ max 1 (min 20 qv) := le_max_left _ _
  have hc20 : max 1 (min 20 qv) ≤ 20 :=
    max_le (by norm_num) (min_le_left _ _)
  have hne : (max 1 (min 20 qv) == (0 : ℚ)) = false := by
    simp only [beq_eq_false_iff_ne, ne_eq]
    intro h
    rw [h] at hc1
    norm_num at hc1
  simp only [jsSlice]
  rw [hne]
  simp only [Bool.false_eq_true, if_false]
  have htr : jsTrunc (max 1 (min 20 qv)) = ⌊max 1 (min 20 qv)⌋ := by
    unfold jsTrunc
    rw [if_neg (not_lt.2 (by linarith : (0 : ℚ) ≤ max 1 (min 20 qv)))]
  have hpos : ¬(jsTrunc (max 1 (min 20 qv)) < 0) := by
    rw [htr]
    simp only [not_lt]
    exact Int.le_floor.2 (by push_cast; linarith)
  rw [if_neg hpos]
  calc (l.take (jsTrunc (max 1 (min 20 qv))).toNat).length
      ≤ (jsTrunc (max 1 (min 20 qv))).toNat := List.length_take_le _ _
    _ ≤ 20 := by
        rw [htr]
        have h20 : ⌊max 1 (min 20 qv)⌋ ≤ 20 := by
          calc ⌊max 1 (min 20 qv)⌋ ≤ ⌊(20 : ℚ)⌋ := Int.floor_le_floor hc20
            _ = 20 := by norm_num
        exact Int.toNat_le.2 h20

/-- C8 as amended: an absent `limit` parameter defaults to 3 and a
numeric one is clamped to `max(1, min(20, v))`, which always lies in
`[1, 20]` (it is fractional when `v` is; the slice floors it), and the
limit slice applied with a clamped limit keeps at most 20 entries — in
both the local pipeline and the remote final-filter chain, whose
post-slice re-hydration preserves the item count; but a non-numeric
parameter yields `NaN`, which is falsy, so no truncation is applied at
all and the returned list can exceed every bound. -/
theorem limitClamp_amended :
    (∀ qv : ℚ, effectiveLimit (some (some qv)) = some (max 1 (min 20 qv))
      ∧ 1 ≤ max 1 (min 20 qv) ∧ max 1 (min 20 qv) ≤ 20)
    ∧ effectiveLimit none = some 3
    ∧ effectiveLimit (some none) = none
    ∧ (∀ l : List Product, jsSlice none l = l)
    ∧ (∀ (l : List Product) (qv : ℚ),
        (jsSlice (some (max 1 (min 20 qv))) l).length ≤ 20)
    ∧ (∀ catalog q category maxPrice (qv : ℚ),
        (localCompute catalog q category maxPrice
          (effectiveLimit (some (some qv)))).length ≤ 20)
    ∧ (∀ env category maxPrice (qv : ℚ) (items2 : List Product),
        (remoteFilters env category maxPrice
          (effectiveLimit (some (some qv))) items2).length ≤ 20)
    ∧ (∀ env (l : List Product) (allow : ℕ),
        (enrichFromDetailPages env l allow).1.length = l.length)
    ∧ (∀ env (items6 : List Product),
        (remoteEnrich env items6).1.length = items6.length) := by
  refine ⟨?_, rfl, rfl, fun l => rfl, jsSlice_clamped_le, ?_, ?_, enrichFromDetailPages_length, ?_⟩
  · intro qv
    exact ⟨rfl, le_max_left _ _, max_le (by norm_num) (min_le_left _ _)⟩
  · intro catalog q category maxPrice qv
    simp only [localCompute, effectiveLimit]
    exact jsSlice_clamped_le _ qv
  · intro env category maxPrice qv items2
    simp only [remoteFilters, effectiveLimit]
    exact jsSlice_clamped_le _ qv
  · intro env items6
    simp only [remoteEnrich]
    split
    · rfl
    · split
      · rw [show prioritizeProducts env.ps
            (enrichFromDetailPages env items6 4).1
            = (enrichFromDetailPages env items6 4).1.insertionSort
              (prodBefore env.ps) from rfl]
        rw [(List.perm_insertionSort (prodBefore env.ps) _).length_eq]
        exact enrichFromDetailPages_length env items6 4
      · rfl

end Melaleuca
